import Mathlib

/-!
Verification of the recipes-functions service: a shallow embedding of the
ownership/audit utilities, entity handlers (ingredients, recipes,
suggestions), slug generation and the keyword search engine, together with
theorems settling the specification claims.

JavaScript string primitives (`split`, `includes`, `toLowerCase`) are
modelled character-exactly over `List Char`; Firestore collections are
modelled as association lists from document id to document; the wall clock
and the external embedding service are passed in as explicit parameters.
-/

namespace RecipesFn

/-! ### JavaScript string primitives -/

/-- `startsWithL s t` is JavaScript `s.startsWith(t)` on char lists. -/
def startsWithL : List Char → List Char → Bool
  | _, [] => true
  | [], _ :: _ => false
  | c :: s, d :: t => c == d && startsWithL s t

/-- `jsIncludesL s t` is JavaScript `s.includes(t)` on char lists. -/
def jsIncludesL : List Char → List Char → Bool
  | [], t => startsWithL [] t
  | c :: s, t => startsWithL (c :: s) t || jsIncludesL s t

/-- Fuel-driven core of JavaScript `String.prototype.split` with a nonempty
separator `t`: greedy left-to-right scan cutting at each occurrence of `t`.
Fuel at least the length of the scanned list makes the fuel irrelevant. -/
def jsSplitNEAux (t : List Char) : Nat → List Char → List (List Char)
  | _, [] => [[]]
  | 0, _ :: _ => [[]]
  | fuel + 1, c :: s =>
    if t.length ≠ 0 ∧ startsWithL (c :: s) t then
      [] :: jsSplitNEAux t fuel (List.drop (t.length - 1) s)
    else
      match jsSplitNEAux t fuel s with
      | [] => [[c]]
      | seg :: rest => (c :: seg) :: rest

/-- JavaScript `s.split(t)` on char lists: the empty separator splits into
single characters, a nonempty separator cuts greedily at occurrences. -/
def jsSplitL (s t : List Char) : List (List Char) :=
  if t.isEmpty then s.map (fun c => [c]) else jsSplitNEAux t s.length s

/-- JavaScript `s.split(t)` at `String` level. -/
def jsSplit (s t : String) : List String :=
  (jsSplitL s.data t.data).map (fun l => String.mk l)

/-- JavaScript `s.toLowerCase()` (character-wise lowering). -/
def jsToLower (s : String) : String :=
  String.mk (s.data.map Char.toLower)

/-- The number of non-overlapping occurrences of `t` in `s`, counted by the
same greedy left-to-right scan that `split` performs.  This is the
specification-side notion of "occurrence count" used by the search claims. -/
def countOccsAux (t : List Char) : Nat → List Char → Nat
  | _, [] => 0
  | 0, _ :: _ => 0
  | fuel + 1, c :: s =>
    if t.length ≠ 0 ∧ startsWithL (c :: s) t then
      countOccsAux t fuel (List.drop (t.length - 1) s) + 1
    else
      countOccsAux t fuel s

/-- Greedy non-overlapping occurrence count of `t` in `s`. -/
def countOccs (t s : List Char) : Nat := countOccsAux t s.length s

/-! ### Decimal representation: `Nat.repr` is injective

Needed to show the slug candidates `base`, `base-2`, `base-3`, … are
pairwise distinct, which bounds the slug-uniqueness loop. -/

/-- Numeric value of a decimal digit character. -/
def digitVal (c : Char) : Nat := c.toNat - 48

/-- Value of a big-endian list of decimal digit characters. -/
def valOfDigits (l : List Char) : Nat :=
  l.foldl (fun acc c => 10 * acc + digitVal c) 0

/-! ### Slug generation (`slugifyUnique` in `utils.ts`)

The `slugify` npm call `slugify(name, {lower: true, strict: true})` is an
external library; it is modelled faithfully for ASCII input: hyphens become
spaces, characters other than ASCII alphanumerics and spaces are removed
(the `strict` pass), whitespace runs are collapsed into single hyphens with
leading and trailing runs trimmed, and the result is lowercased. -/

/-- ASCII model of `slugify(name, {lower: true, strict: true})`. -/
def slugifyBase (name : String) : String :=
  let mapped := name.data.map (fun c => if c = '-' then ' ' else c)
  let stripped := mapped.filter (fun c => c.isAlphanum || c = ' ')
  let words := (stripped.splitOn ' ').filter (fun w => w ≠ [])
  String.mk ((List.intercalate ['-'] words).map Char.toLower)

/-- A document as seen by the slug-collision query: Firestore's
`where("slug", "==", s)` matches only documents that store a `slug` field,
so the field is optional here (ingredient documents never store one). -/
structure SlugRecord where
  slug : Option String
  isArchived : Bool
deriving DecidableEq, Repr

/-- The collision check of the `while` loop: some non-archived document in
the collection holds `s` in its `slug` field. -/
def slugTaken (store : List SlugRecord) (s : String) : Bool :=
  store.any (fun d => d.isArchived == false && d.slug == some s)

/-- The `k`-th candidate tried by the loop: the base slug, then
`base-2`, `base-3`, … (`counter` starts at 2 in the source). -/
def slugCandidate (base : String) : Nat → String
  | 0 => base
  | k + 1 => base ++ "-" ++ Nat.repr (k + 2)

/-- Fuel-driven unfolding of the source's `while (true)` loop; fuel
`store.length + 1` is always sufficient (see `slugifyUniqueAux_spec`). -/
def slugifyUniqueAux (store : List SlugRecord) (base : String) : Nat → Nat → Option String
  | 0, _ => none
  | fuel + 1, k =>
    if slugTaken store (slugCandidate base k) then
      slugifyUniqueAux store base fuel (k + 1)
    else
      some (slugCandidate base k)

/-- `slugifyUnique(name, collection)` from `utils.ts`: normalize the name,
then try `base`, `base-2`, `base-3`, … until a candidate is held by no
non-archived document of the collection. -/
def slugifyUnique (store : List SlugRecord) (name : String) : Option String :=
  slugifyUniqueAux store (slugifyBase name) (store.length + 1) 0

/-- The non-archived slugs actually stored in a collection. -/
def storedSlugs (store : List SlugRecord) : List String :=
  store.filterMap (fun d => if d.isArchived then none else d.slug)

/-- Total version of `slugifyUnique`, used inside handlers; it agrees with
`slugifyUnique` because the fuel always suffices (`slugifyUnique_spec`). -/
def slugifyUniqueT (store : List SlugRecord) (name : String) : String :=
  (slugifyUnique store name).getD (slugifyBase name)

/-! ### Errors, audit utilities and stores -/

/-- The error taxonomy of the handlers, with the data each source message
carries (`accessDenied` names the collection, the document id, the owning
group and the calling group, as the `validateOwnership` message does). -/
inductive HandlerError
  | notFound (collection id : String)
  | accessDenied (collection id ownerGroup callerGroup : String)
  | validationError (msg : String)
deriving DecidableEq, Repr

/-- `canEdit(doc, groupId)` from `utils.ts`, applied to the document's
`createdByGroupId` field. -/
def canEdit (createdByGroupId groupId : String) : Bool :=
  createdByGroupId == groupId

/-- `validateOwnership(doc, groupId, id, collection)` from `utils.ts`:
throws an access-denied error naming the owner unless `canEdit`. -/
def validateOwnership (createdByGroupId groupId id collection : String) :
    Except HandlerError Unit :=
  if canEdit createdByGroupId groupId then Except.ok ()
  else Except.error (HandlerError.accessDenied collection id createdByGroupId groupId)

/-- A document with the audit envelope, `rest` standing for every other
field; fields are optional because `setAuditFields` is applied both to full
documents and to partial `updates` objects. -/
structure AuditedDoc (α : Type) where
  createdAt : Option String
  createdByGroupId : Option String
  updatedAt : Option String
  updatedByGroupId : Option String
  isArchived : Option Bool
  rest : α
deriving DecidableEq, Repr

/-- `setAuditFields(doc, groupId, isUpdate)` from `utils.ts`; the wall
clock `new Date().toISOString()` is the explicit `now` parameter. -/
def setAuditFields (doc : AuditedDoc α) (groupId now : String) (isUpdate : Bool) :
    AuditedDoc α :=
  let d := if isUpdate then doc
    else { doc with
      createdAt := some now, createdByGroupId := some groupId, isArchived := some false }
  { d with updatedAt := some now, updatedByGroupId := some groupId }

/-- A Firestore collection: an association list from document id to data. -/
abbrev Store (α : Type) := List (String × α)

/-- `db.collection(c).doc(id).get()`. -/
def storeGet (st : Store α) (id : String) : Option α :=
  (st.find? (fun p => p.1 == id)).map (fun p => p.2)

/-- `docRef.set(doc)` / the merged result of `docRef.update(updates)`:
replace the document when the id exists, create it otherwise. -/
def storeSet (st : Store α) (id : String) (a : α) : Store α :=
  if st.any (fun p => p.1 == id) then
    st.map (fun p => if p.1 == id then (id, a) else p)
  else st ++ [(id, a)]

/-! ### Entity data -/

/-- A recipe's ingredient line (`RecipeIngredientSchema`). -/
structure RecipeIngredient where
  ingredientId : String
  quantity : Option Int
  unit : String
  quantityText : Option String
  note : Option String
deriving DecidableEq, Repr

/-- A recipe step (`RecipeStepSchema`). -/
structure RecipeStep where
  text : String
  imageUrl : Option String
  equipment : Option (List String)
deriving DecidableEq, Repr

/-- The external embedding service (`generateEmbedding` in `embedding.ts`)
is an out-of-scope collaborator; its output vector is modelled as an opaque
token identified by the input text it was generated from. -/
structure EmbeddingVec where
  sourceText : String
deriving DecidableEq, Repr

/-- Model of `generateEmbedding(text)`. -/
def generateEmbedding (text : String) : EmbeddingVec := ⟨text⟩

/-- A recipe document. `imageUrl` and `embedding` exist only in the
AI-enabled variant and are optional. -/
structure Recipe where
  slug : String
  name : String
  description : String
  servings : Int
  ingredients : List RecipeIngredient
  steps : List RecipeStep
  tags : List String
  categories : List String
  sourceUrl : Option String
  imageUrl : Option String
  embedding : Option EmbeddingVec
  variantOf : Option String
  createdAt : String
  updatedAt : String
  createdByGroupId : String
  updatedByGroupId : String
  isArchived : Bool
deriving DecidableEq, Repr

/-- Nutritional macros (`NutritionalInfoSchema`); the numeric payloads are
carried, never computed with. -/
structure Nutrition where
  calories : Option Int
  protein : Option Int
  carbohydrates : Option Int
  fat : Option Int
  fiber : Option Int
deriving DecidableEq, Repr

/-- A `{from, to, factor}` unit conversion. -/
structure UnitConversion where
  fromUnit : String
  toUnit : String
  factor : Int
deriving DecidableEq, Repr

/-- An ingredient document.  Note: ingredient documents never store a
`slug` field (`ingredientsCreate` writes `{...data, audit fields}` only),
which is why `ingredientSlugRecord` below projects `slug := none`. -/
structure Ingredient where
  name : String
  aliases : List String
  categories : List String
  allergens : List String
  nutrition : Option Nutrition
  metadata : Option (List (String × String))
  supportedUnits : Option (List String)
  unitConversions : Option (List UnitConversion)
  variantOf : Option String
  createdAt : String
  updatedAt : String
  createdByGroupId : String
  updatedByGroupId : String
  isArchived : Bool
deriving DecidableEq, Repr

/-- A suggestion document (consolidated variant's field set; enum-valued
fields are carried as strings, their validation being a schema concern). -/
structure Suggestion where
  title : String
  description : String
  category : String
  priority : String
  relatedRecipeId : Option String
  status : String
  votes : Int
  votedByGroups : List String
  variantOf : Option String
  submittedAt : String
  updatedAt : String
  submittedByGroupId : String
  createdByGroupId : String
  updatedByGroupId : String
  createdAt : String
  isArchived : Bool
deriving DecidableEq, Repr

/-- The slug-query view of a recipe document. -/
def recipeSlugRecord (r : Recipe) : SlugRecord := ⟨some r.slug, r.isArchived⟩

/-- The slug-query view of an ingredient document: no `slug` field is ever
stored, so the `where("slug", "==", …)` filter can never match it. -/
def ingredientSlugRecord (i : Ingredient) : SlugRecord := ⟨none, i.isArchived⟩

/-- JavaScript `a || b` for an optional string `a`: the override wins only
when present and non-empty (truthy). -/
def jsOr (o : Option String) (dflt : String) : String :=
  match o with
  | some s => if s.isEmpty then dflt else s
  | none => dflt

/-- JavaScript truthiness of an optional string. -/
def jsTruthy (o : Option String) : Bool :=
  match o with
  | some s => !s.isEmpty
  | none => false

/-- `...(x && { f: x })`: spread the field only when truthy. -/
def truthyOpt (o : Option String) : Option String :=
  match o with
  | some s => if s.isEmpty then none else some s
  | none => none

/-! ### Array-delta operations (`utils.ts` / `recipesUpdate`) -/

/-- `applyStringArrayOps(current, add, remove)` from `utils.ts`: remove
first, then append each added value not already present. -/
def applyStringArrayOps (current : List String)
    (addOps removeOps : Option (List String)) : List String :=
  let afterRemove := match removeOps with
    | some rem => current.filter (fun item => !rem.contains item)
    | none => current
  match addOps with
  | some add =>
    add.foldl (fun acc item => if acc.contains item then acc else acc ++ [item]) afterRemove
  | none => afterRemove

/-- One step of the `addIngredients` loop in `recipesUpdate`: replace the
first entry with a matching `ingredientId`, else append. -/
def upsertIngredient (cur : List RecipeIngredient) (ing : RecipeIngredient) :
    List RecipeIngredient :=
  let idx := cur.findIdx (fun c => c.ingredientId == ing.ingredientId)
  if idx < cur.length then cur.set idx ing else cur ++ [ing]

/-- The ingredient-delta block of `recipesUpdate`: filter out
`removeIngredientIds`, then upsert each of `addIngredients`. -/
def applyIngredientArrayOps (cur : List RecipeIngredient)
    (addOps : Option (List RecipeIngredient)) (removeIds : Option (List String)) :
    List RecipeIngredient :=
  let afterRemove := match removeIds with
    | some rem => cur.filter (fun ing => !rem.contains ing.ingredientId)
    | none => cur
  match addOps with
  | some adds => adds.foldl upsertIngredient afterRemove
  | none => afterRemove

/-- `[...removeStepIndexes].sort((a, b) => b - a)`: sort descending
(stable, like the JavaScript engine's sort). -/
def sortDescNat (l : List Nat) : List Nat :=
  l.mergeSort (fun a b => b ≤ a)

/-- The step-removal loop of `recipesUpdate`: splice out each in-range
index, visiting the indexes in descending order. -/
def removeIndexesDesc (cur : List α) (idxs : List Nat) : List α :=
  (sortDescNat idxs).foldl
    (fun acc idx => if idx < acc.length then acc.eraseIdx idx else acc) cur

/-- The step-delta block of `recipesUpdate`: descending-index removal
followed by appending `addSteps`. -/
def applyStepArrayOps (cur : List RecipeStep)
    (addOps : Option (List RecipeStep)) (removeIdxs : Option (List Nat)) :
    List RecipeStep :=
  let afterRemove := match removeIdxs with
    | some idxs => removeIndexesDesc cur idxs
    | none => cur
  match addOps with
  | some adds => afterRemove ++ adds
  | none => afterRemove

/-! ### Ingredient handlers (`ingredients.ts`) -/

/-- Parsed body of `ingredientsUpdate` (`UpdateIngredientSchema`). -/
structure UpdateIngredientReq where
  id : String
  name : Option String
  aliases : Option (List String)
  categories : Option (List String)
  allergens : Option (List String)
  nutrition : Option Nutrition
  metadata : Option (List (String × String))
  supportedUnits : Option (List String)
  unitConversions : Option (List UnitConversion)
deriving DecidableEq, Repr

/-- The merge performed by `docRef.update({...data})`: fields present in
the request replace the stored fields, absent fields are untouched. -/
def applyIngredientUpdate (doc : Ingredient) (r : UpdateIngredientReq) : Ingredient :=
  { doc with
    name := r.name.getD doc.name
    aliases := r.aliases.getD doc.aliases
    categories := r.categories.getD doc.categories
    allergens := r.allergens.getD doc.allergens
    nutrition := r.nutrition.or doc.nutrition
    metadata := r.metadata.or doc.metadata
    supportedUnits := r.supportedUnits.or doc.supportedUnits
    unitConversions := r.unitConversions.or doc.unitConversions }

/-- `ingredientsUpdate`: fetch, missing/archived → not-found, ownership
check, merge, audit stamp, write back. -/
def ingredientsUpdate (st : Store Ingredient) (groupId : String)
    (r : UpdateIngredientReq) (now : String) :
    Store Ingredient × Except HandlerError Ingredient :=
  match storeGet st r.id with
  | none => (st, Except.error (HandlerError.notFound "ingredients" r.id))
  | some doc =>
    if doc.isArchived then
      (st, Except.error (HandlerError.notFound "ingredients" r.id))
    else
      match validateOwnership doc.createdByGroupId groupId r.id "ingredients" with
      | Except.error e => (st, Except.error e)
      | Except.ok _ =>
        let updated := applyIngredientUpdate doc r
        let updated := { updated with updatedAt := now, updatedByGroupId := groupId }
        (storeSet st r.id updated, Except.ok updated)

/-- `ingredientsDelete`: same checks, then `isArchived := true` plus the
update-mode audit stamp. -/
def ingredientsDelete (st : Store Ingredient) (groupId id now : String) :
    Store Ingredient × Except HandlerError Unit :=
  match storeGet st id with
  | none => (st, Except.error (HandlerError.notFound "ingredients" id))
  | some doc =>
    if doc.isArchived then
      (st, Except.error (HandlerError.notFound "ingredients" id))
    else
      match validateOwnership doc.createdByGroupId groupId id "ingredients" with
      | Except.error e => (st, Except.error e)
      | Except.ok _ =>
        let updated := { doc with isArchived := true, updatedAt := now, updatedByGroupId := groupId }
        (storeSet st id updated, Except.ok ())

/-- Parsed body of `ingredientsDuplicate` (`DuplicateIngredientSchema`). -/
structure DuplicateIngredientReq where
  id : String
  name : Option String
  aliases : Option (List String)
  categories : Option (List String)
  allergens : Option (List String)
  nutrition : Option Nutrition
  metadata : Option (List (String × String))
  supportedUnits : Option (List String)
  unitConversions : Option (List UnitConversion)
deriving DecidableEq, Repr

/-- `ingredientsDuplicate`: fetch the original, build the override-merged
copy owned by the caller, and write it under
`slugifyUnique(newName, "ingredients")` — the id is *not* taken from a
fresh `doc()` reference. -/
def ingredientsDuplicate (st : Store Ingredient) (groupId : String)
    (r : DuplicateIngredientReq) (now : String) :
    Store Ingredient × Except HandlerError (String × Ingredient) :=
  match storeGet st r.id with
  | none => (st, Except.error (HandlerError.notFound "ingredients" r.id))
  | some original =>
    if original.isArchived then
      (st, Except.error (HandlerError.notFound "ingredients" r.id))
    else
      let newName := jsOr r.name original.name
      let newId := slugifyUniqueT (st.map (fun p => ingredientSlugRecord p.2)) newName
      let doc : Ingredient :=
        { name := newName
          aliases := r.aliases.getD original.aliases
          categories := r.categories.getD original.categories
          allergens := r.allergens.getD original.allergens
          nutrition := r.nutrition.or original.nutrition
          metadata := r.metadata.or original.metadata
          supportedUnits := r.supportedUnits.or original.supportedUnits
          unitConversions := r.unitConversions.or original.unitConversions
          variantOf := some r.id
          createdAt := now
          updatedAt := now
          createdByGroupId := groupId
          updatedByGroupId := groupId
          isArchived := false }
      (storeSet st newId doc, Except.ok (newId, doc))

/-! ### Recipe handlers (consolidated variant, `recipes.ts`) -/

/-- Parsed body of the consolidated `recipesUpdate`
(`UpdateRecipeSchema` with the array-operation fields). -/
structure UpdateRecipeReq where
  id : String
  name : Option String
  description : Option String
  servings : Option Int
  ingredients : Option (List RecipeIngredient)
  steps : Option (List RecipeStep)
  tags : Option (List String)
  categories : Option (List String)
  sourceUrl : Option String
  addTags : Option (List String)
  removeTags : Option (List String)
  addCategories : Option (List String)
  removeCategories : Option (List String)
  addIngredients : Option (List RecipeIngredient)
  removeIngredientIds : Option (List String)
  addSteps : Option (List RecipeStep)
  removeStepIndexes : Option (List Nat)
deriving DecidableEq, Repr

/-- `validateArrayOpConflicts` over `RECIPE_ARRAY_OP_CONFLICTS`: a full
replacement together with its add/remove fields is rejected. -/
def recipeArrayOpConflict (r : UpdateRecipeReq) : Bool :=
  (r.tags.isSome && (r.addTags.isSome || r.removeTags.isSome)) ||
  (r.categories.isSome && (r.addCategories.isSome || r.removeCategories.isSome)) ||
  (r.ingredients.isSome && (r.addIngredients.isSome || r.removeIngredientIds.isSome)) ||
  (r.steps.isSome && (r.addSteps.isSome || r.removeStepIndexes.isSome))

/-- The field merge and array-delta blocks of the consolidated
`recipesUpdate`, producing the post-update document. -/
def applyRecipeUpdate (doc : Recipe) (r : UpdateRecipeReq) : Recipe :=
  let d := { doc with
    name := r.name.getD doc.name
    description := r.description.getD doc.description
    servings := r.servings.getD doc.servings
    ingredients := r.ingredients.getD doc.ingredients
    steps := r.steps.getD doc.steps
    tags := r.tags.getD doc.tags
    categories := r.categories.getD doc.categories
    sourceUrl := r.sourceUrl.or doc.sourceUrl }
  let d := if r.addTags.isSome || r.removeTags.isSome then
      { d with tags := applyStringArrayOps doc.tags r.addTags r.removeTags }
    else d
  let d := if r.addCategories.isSome || r.removeCategories.isSome then
      { d with categories := applyStringArrayOps doc.categories r.addCategories r.removeCategories }
    else d
  let d := if r.addIngredients.isSome || r.removeIngredientIds.isSome then
      { d with ingredients := applyIngredientArrayOps doc.ingredients r.addIngredients r.removeIngredientIds }
    else d
  let d := if r.removeStepIndexes.isSome || r.addSteps.isSome then
      { d with steps := applyStepArrayOps doc.steps r.addSteps r.removeStepIndexes }
    else d
  d

/-- Consolidated `recipesUpdate`: conflict validation, fetch,
missing/archived → not-found, ownership check, merge, audit stamp. -/
def recipesUpdate (st : Store Recipe) (groupId : String)
    (r : UpdateRecipeReq) (now : String) :
    Store Recipe × Except HandlerError Recipe :=
  if recipeArrayOpConflict r then
    (st, Except.error (HandlerError.validationError "array operation conflict"))
  else
    match storeGet st r.id with
    | none => (st, Except.error (HandlerError.notFound "recipes" r.id))
    | some doc =>
      if doc.isArchived then
        (st, Except.error (HandlerError.notFound "recipes" r.id))
      else
        match validateOwnership doc.createdByGroupId groupId r.id "recipes" with
        | Except.error e => (st, Except.error e)
        | Except.ok _ =>
          let updated := applyRecipeUpdate doc r
          let updated := { updated with updatedAt := now, updatedByGroupId := groupId }
          (storeSet st r.id updated, Except.ok updated)

/-- Consolidated `recipesDelete`. -/
def recipesDelete (st : Store Recipe) (groupId id now : String) :
    Store Recipe × Except HandlerError Unit :=
  match storeGet st id with
  | none => (st, Except.error (HandlerError.notFound "recipes" id))
  | some doc =>
    if doc.isArchived then
      (st, Except.error (HandlerError.notFound "recipes" id))
    else
      match validateOwnership doc.createdByGroupId groupId id "recipes" with
      | Except.error e => (st, Except.error e)
      | Except.ok _ =>
        let updated := { doc with isArchived := true, updatedAt := now, updatedByGroupId := groupId }
        (storeSet st id updated, Except.ok ())

/-- Parsed body of `recipesDuplicate` (`DuplicateRecipeSchema`). -/
structure DuplicateRecipeReq where
  id : String
  name : Option String
  description : Option String
  servings : Option Int
  ingredients : Option (List RecipeIngredient)
  steps : Option (List RecipeStep)
  tags : Option (List String)
  categories : Option (List String)
  sourceUrl : Option String
deriving DecidableEq, Repr

/-- `recipesDuplicate`: fetch the original, override-merge (`!== undefined`
checks, so explicit empty arrays win), fresh `doc()` id (`newId`
parameter), fresh unique slug from the possibly-overridden name,
`variantOf := original id`, owned by the caller. -/
def recipesDuplicate (st : Store Recipe) (groupId : String)
    (r : DuplicateRecipeReq) (newId now : String) :
    Store Recipe × Except HandlerError (String × Recipe) :=
  match storeGet st r.id with
  | none => (st, Except.error (HandlerError.notFound "recipes" r.id))
  | some original =>
    if original.isArchived then
      (st, Except.error (HandlerError.notFound "recipes" r.id))
    else
      let newName := jsOr r.name original.name
      let newSlug := slugifyUniqueT (st.map (fun p => recipeSlugRecord p.2)) newName
      let doc : Recipe :=
        { slug := newSlug
          name := newName
          description := r.description.getD original.description
          servings := r.servings.getD original.servings
          ingredients := r.ingredients.getD original.ingredients
          steps := r.steps.getD original.steps
          tags := r.tags.getD original.tags
          categories := r.categories.getD original.categories
          sourceUrl := r.sourceUrl.or original.sourceUrl
          imageUrl := none
          embedding := none
          variantOf := some r.id
          createdAt := now
          updatedAt := now
          createdByGroupId := groupId
          updatedByGroupId := groupId
          isArchived := false }
      (storeSet st newId doc, Except.ok (newId, doc))

/-! ### Recipe update, AI-enabled variant (`recipes.ts`, embedding) -/

/-- Parsed body of the AI-variant `recipesUpdate` (the target id comes from
the URL parameters, not the body; `generateImage` defaults to `false`). -/
structure UpdateRecipeAIReq where
  name : Option String
  description : Option String
  servings : Option Int
  ingredients : Option (List RecipeIngredient)
  steps : Option (List RecipeStep)
  tags : Option (List String)
  categories : Option (List String)
  sourceUrl : Option String
  generateImage : Bool
deriving DecidableEq, Repr

/-- The `{...data}` merge of the AI-variant `recipesUpdate`. -/
def applyRecipeUpdateAI (doc : Recipe) (r : UpdateRecipeAIReq) : Recipe :=
  { doc with
    name := r.name.getD doc.name
    description := r.description.getD doc.description
    servings := r.servings.getD doc.servings
    ingredients := r.ingredients.getD doc.ingredients
    steps := r.steps.getD doc.steps
    tags := r.tags.getD doc.tags
    categories := r.categories.getD doc.categories
    sourceUrl := r.sourceUrl.or doc.sourceUrl }

/-- The success-path document of the AI-variant `recipesUpdate`: field
merge, then embedding regeneration gated on `data.name ||
data.description` (JavaScript truthiness, with the embedding text falling
back to the *existing* name/description when the supplied one is falsy),
then the placeholder image (`generateImage` returns the empty string),
then the update-mode audit stamp. -/
def recipesUpdateAIDoc (existing : Recipe) (r : UpdateRecipeAIReq)
    (groupId now : String) : Recipe :=
  let updated := applyRecipeUpdateAI existing r
  let updated :=
    if jsTruthy r.name || jsTruthy r.description then
      { updated with embedding := some (generateEmbedding
          (jsOr r.name existing.name ++ " " ++ jsOr r.description existing.description)) }
    else updated
  let updated :=
    if r.generateImage && jsTruthy r.name then
      { updated with imageUrl := some "" }
    else updated
  { updated with updatedAt := now, updatedByGroupId := groupId }

/-- AI-variant `recipesUpdate`: missing target → not-found, foreign owner
→ access denied (`403`), then the success-path write. -/
def recipesUpdateAI (st : Store Recipe) (groupId id : String)
    (r : UpdateRecipeAIReq) (now : String) :
    Store Recipe × Except HandlerError Recipe :=
  match storeGet st id with
  | none => (st, Except.error (HandlerError.notFound "recipes" id))
  | some existing =>
    if existing.createdByGroupId != groupId then
      (st, Except.error (HandlerError.accessDenied "recipes" id existing.createdByGroupId groupId))
    else
      (storeSet st id (recipesUpdateAIDoc existing r groupId now),
        Except.ok (recipesUpdateAIDoc existing r groupId now))

/-! ### Suggestion handlers (`suggestions.ts` and the consolidated variant) -/

/-- Parsed body of `suggestionsCreate` (`CreateSuggestionSchema`, with the
`category`/`priority` defaults already applied by the parser). -/
structure CreateSuggestionReq where
  title : String
  description : String
  category : String
  priority : String
  relatedRecipeId : Option String
deriving DecidableEq, Repr

/-- The document written by the consolidated `suggestionsCreate`:
`status := "submitted"`, zero votes, empty voter set, owned by the caller;
`relatedRecipeId` is spread only when truthy. -/
def suggestionsCreateDoc (r : CreateSuggestionReq) (groupId now : String) : Suggestion :=
  { title := r.title
    description := r.description
    category := r.category
    priority := r.priority
    relatedRecipeId := truthyOpt r.relatedRecipeId
    status := "submitted"
    votes := 0
    votedByGroups := []
    variantOf := none
    submittedAt := now
    updatedAt := now
    submittedByGroupId := groupId
    createdByGroupId := groupId
    updatedByGroupId := groupId
    createdAt := now
    isArchived := false }

/-- Parsed body of `suggestionsUpdate` (`UpdateSuggestionSchema`). -/
structure UpdateSuggestionReq where
  id : String
  title : Option String
  description : Option String
  category : Option String
  priority : Option String
  relatedRecipeId : Option String
  status : Option String
deriving DecidableEq, Repr

/-- The `docRef.update({...data})` merge of `suggestionsUpdate`. -/
def applySuggestionUpdate (doc : Suggestion) (r : UpdateSuggestionReq) : Suggestion :=
  { doc with
    title := r.title.getD doc.title
    description := r.description.getD doc.description
    category := r.category.getD doc.category
    priority := r.priority.getD doc.priority
    relatedRecipeId := r.relatedRecipeId.or doc.relatedRecipeId
    status := r.status.getD doc.status }

/-- Consolidated (`part_006`) `suggestionsUpdate`: fetch, missing/archived
→ not-found, **ownership check**, merge, audit stamp. -/
def suggestionsUpdate (st : Store Suggestion) (groupId : String)
    (r : UpdateSuggestionReq) (now : String) :
    Store Suggestion × Except HandlerError Suggestion :=
  match storeGet st r.id with
  | none => (st, Except.error (HandlerError.notFound "suggestions" r.id))
  | some doc =>
    if doc.isArchived then
      (st, Except.error (HandlerError.notFound "suggestions" r.id))
    else
      match validateOwnership doc.createdByGroupId groupId r.id "suggestions" with
      | Except.error e => (st, Except.error e)
      | Except.ok _ =>
        let updated := applySuggestionUpdate doc r
        let updated := { updated with updatedAt := now, updatedByGroupId := groupId }
        (storeSet st r.id updated, Except.ok updated)

/-- Consolidated (`part_006`) `suggestionsDelete`: same checks, then the
soft-delete write. -/
def suggestionsDelete (st : Store Suggestion) (groupId id now : String) :
    Store Suggestion × Except HandlerError Unit :=
  match storeGet st id with
  | none => (st, Except.error (HandlerError.notFound "suggestions" id))
  | some doc =>
    if doc.isArchived then
      (st, Except.error (HandlerError.notFound "suggestions" id))
    else
      match validateOwnership doc.createdByGroupId groupId id "suggestions" with
      | Except.error e => (st, Except.error e)
      | Except.ok _ =>
        let updated := { doc with isArchived := true, updatedAt := now, updatedByGroupId := groupId }
        (storeSet st id updated, Except.ok ())

/-- `suggestionsUpdate` from `src/functions/src/suggestions.ts`: identical
to the consolidated handler except that it performs **no ownership
check** between the archived-check and the write. -/
def suggestionsUpdateSilo (st : Store Suggestion) (groupId : String)
    (r : UpdateSuggestionReq) (now : String) :
    Store Suggestion × Except HandlerError Suggestion :=
  match storeGet st r.id with
  | none => (st, Except.error (HandlerError.notFound "suggestions" r.id))
  | some doc =>
    if doc.isArchived then
      (st, Except.error (HandlerError.notFound "suggestions" r.id))
    else
      let updated := applySuggestionUpdate doc r
      let updated := { updated with updatedAt := now, updatedByGroupId := groupId }
      (storeSet st r.id updated, Except.ok updated)

/-- `suggestionsDelete` from `src/functions/src/suggestions.ts`: likewise
no ownership check. -/
def suggestionsDeleteSilo (st : Store Suggestion) (groupId id now : String) :
    Store Suggestion × Except HandlerError Unit :=
  match storeGet st id with
  | none => (st, Except.error (HandlerError.notFound "suggestions" id))
  | some doc =>
    if doc.isArchived then
      (st, Except.error (HandlerError.notFound "suggestions" id))
    else
      let updated := { doc with isArchived := true, updatedAt := now, updatedByGroupId := groupId }
      (storeSet st id updated, Except.ok ())

/-- The toggle core of `suggestionsVote`: a group already in
`votedByGroups` is filtered out with `votes := max(0, votes - 1)`,
otherwise it is appended with `votes := votes + 1`; both branches receive
the update-mode audit stamp. -/
def voteToggle (s : Suggestion) (groupId now : String) : Suggestion :=
  if s.votedByGroups.contains groupId then
    { s with
      votes := max 0 (s.votes - 1)
      votedByGroups := s.votedByGroups.filter (fun g => g != groupId)
      updatedAt := now
      updatedByGroupId := groupId }
  else
    { s with
      votes := s.votes + 1
      votedByGroups := s.votedByGroups ++ [groupId]
      updatedAt := now
      updatedByGroupId := groupId }

/-- `suggestionsVote`: fetch, missing/archived → not-found, toggle, write;
returns the updated document and the `voted` flag (`!hasVoted`). -/
def suggestionsVote (st : Store Suggestion) (groupId id now : String) :
    Store Suggestion × Except HandlerError (Suggestion × Bool) :=
  match storeGet st id with
  | none => (st, Except.error (HandlerError.notFound "suggestions" id))
  | some doc =>
    if doc.isArchived then
      (st, Except.error (HandlerError.notFound "suggestions" id))
    else
      let hasVoted := doc.votedByGroups.contains groupId
      let updated := voteToggle doc groupId now
      (storeSet st id updated, Except.ok (updated, !hasVoted))

/-- Parsed body of `suggestionsDuplicate` (`DuplicateSuggestionSchema`). -/
structure DuplicateSuggestionReq where
  id : String
  title : Option String
  description : Option String
  category : Option String
  priority : Option String
  relatedRecipeId : Option String
deriving DecidableEq, Repr

/-- The duplicate document built by `suggestionsDuplicate`: `||`-overridden
scalar fields, reset lifecycle (`status := "submitted"`, zero votes, empty
voter set), `variantOf := original id`, owned by the caller. -/
def suggestionsDuplicateDoc (original : Suggestion) (r : DuplicateSuggestionReq)
    (groupId now : String) : Suggestion :=
  { title := jsOr r.title original.title
    description := jsOr r.description original.description
    category := jsOr r.category original.category
    priority := jsOr r.priority original.priority
    relatedRecipeId := r.relatedRecipeId.or (truthyOpt original.relatedRecipeId)
    status := "submitted"
    votes := 0
    votedByGroups := []
    variantOf := some r.id
    submittedAt := now
    updatedAt := now
    submittedByGroupId := groupId
    createdByGroupId := groupId
    updatedByGroupId := groupId
    createdAt := now
    isArchived := false }

/-- `suggestionsDuplicate`: fetch, missing/archived → not-found, write the
duplicate under a fresh `doc()` id (`newId` parameter). -/
def suggestionsDuplicate (st : Store Suggestion) (groupId : String)
    (r : DuplicateSuggestionReq) (newId now : String) :
    Store Suggestion × Except HandlerError (String × Suggestion) :=
  match storeGet st r.id with
  | none => (st, Except.error (HandlerError.notFound "suggestions" r.id))
  | some original =>
    if original.isArchived then
      (st, Except.error (HandlerError.notFound "suggestions" r.id))
    else
      let doc := suggestionsDuplicateDoc original r groupId now
      (storeSet st newId doc, Except.ok (newId, doc))

/-! ### Keyword search (`recipesSearch`) -/

/-- Parsed body of `recipesSearch` (`SearchRecipesSchema`; the parser
rejects limits outside 1..50 and defaults the limit to 20). -/
structure SearchRecipesReq where
  query : String
  ingredients : Option (List String)
  tags : Option (List String)
  categories : Option (List String)
  limit : Nat
deriving DecidableEq, Repr

/-- `data.query.toLowerCase().split(" ")`. -/
def searchTerms (q : String) : List String := jsSplit (jsToLower q) " "

/-- The searched text: `` `${name} ${description}` `` lowercased, as a
char list. -/
def searchTextData (r : Recipe) : List Char :=
  (jsToLower (r.name ++ " " ++ r.description)).data

/-- One term's contribution to the relevance score:
`text.split(term).length - 1`. -/
def termScore (text : List Char) (term : String) : Nat :=
  (jsSplitL text term.data).length - 1

/-- The relevance score: sum of the per-term split counts. -/
def recipeScoreFor (terms : List String) (r : Recipe) : Nat :=
  terms.foldl (fun score term => score + termScore (searchTextData r) term) 0

/-- `searchTerms.some(term => searchText.includes(term))`. -/
def keywordMatch (terms : List String) (r : Recipe) : Bool :=
  terms.any (fun term => jsIncludesL (searchTextData r) term.data)

/-- The `ingredients` secondary filter: skipped unless provided non-empty,
otherwise OR over filter values with exact `ingredientId` match. -/
def ingredientFilterOk (req : Option (List String)) (r : Recipe) : Bool :=
  match req with
  | some l =>
    if l.length > 0 then
      l.any (fun iid => r.ingredients.any (fun ri => ri.ingredientId == iid))
    else true
  | none => true

/-- The `tags` secondary filter: OR over filter values with
case-insensitive substring match against each recipe tag. -/
def tagFilterOk (req : Option (List String)) (r : Recipe) : Bool :=
  match req with
  | some l =>
    if l.length > 0 then
      l.any (fun t => r.tags.any (fun rt =>
        jsIncludesL (jsToLower rt).data (jsToLower t).data))
    else true
  | none => true

/-- The `categories` secondary filter, same shape as the tags filter. -/
def categoryFilterOk (req : Option (List String)) (r : Recipe) : Bool :=
  match req with
  | some l =>
    if l.length > 0 then
      l.any (fun c => r.categories.any (fun rc =>
        jsIncludesL (jsToLower rc).data (jsToLower c).data))
    else true
  | none => true

/-- The filtering stages of `recipesSearch`: candidates are the caller's
non-archived recipes; the keyword filter and then the three secondary
filters are applied in sequence. -/
def searchMatched (st : Store Recipe) (groupId : String) (req : SearchRecipesReq) :
    List (String × Recipe) :=
  let terms := searchTerms req.query
  let candidates := st.filter (fun p =>
    p.2.createdByGroupId == groupId && p.2.isArchived == false)
  let matched := candidates.filter (fun p => keywordMatch terms p.2)
  let matched := matched.filter (fun p => ingredientFilterOk req.ingredients p.2)
  let matched := matched.filter (fun p => tagFilterOk req.tags p.2)
  matched.filter (fun p => categoryFilterOk req.categories p.2)

/-- The ranking stage of `recipesSearch`: a stable sort of the matches by
descending relevance score (the JavaScript engine's stable
`sort((a, b) => bScore - aScore)`). -/
def searchRanked (st : Store Recipe) (groupId : String) (req : SearchRecipesReq) :
    List (String × Recipe) :=
  (searchMatched st groupId req).mergeSort (fun a b =>
    recipeScoreFor (searchTerms req.query) b.2 ≤ recipeScoreFor (searchTerms req.query) a.2)

/-- `recipesSearch`: filter, rank, truncate to the limit.  Returns the
results, the `totalFound` count (measured after truncation) and the
echoed query. -/
def recipesSearch (st : Store Recipe) (groupId : String) (req : SearchRecipesReq) :
    List (String × Recipe) × Nat × String :=
  let limited := (searchRanked st groupId req).take req.limit
  (limited, limited.length, req.query)

/-- The `limit` validation of `SearchRecipesSchema`:
`z.number().min(1).max(50).default(20)` — absent means 20, out-of-range is
rejected. -/
def parseSearchLimit (raw : Option Nat) : Except HandlerError Nat :=
  match raw with
  | none => Except.ok 20
  | some l =>
    if 1 ≤ l ∧ l ≤ 50 then Except.ok l
    else Except.error (HandlerError.validationError "limit out of range")

/-! ### Suggestion vote-state invariants and reachability -/

/-- The vote-system invariant of reachable suggestion states: `votes`
counts the voters and no group appears twice in `votedByGroups`. -/
def GoodSuggestion (s : Suggestion) : Prop :=
  s.votes = (s.votedByGroups.length : Int) ∧ s.votedByGroups.Nodup

/-- Suggestion states reachable through the public operations
(create, duplicate, vote, update, soft-delete). -/
inductive SuggestionReachable : Suggestion → Prop
  | create (r : CreateSuggestionReq) (groupId now : String) :
      SuggestionReachable (suggestionsCreateDoc r groupId now)
  | duplicate (original : Suggestion) (r : DuplicateSuggestionReq) (groupId now : String) :
      SuggestionReachable (suggestionsDuplicateDoc original r groupId now)
  | vote (s : Suggestion) (groupId now : String) :
      SuggestionReachable s → SuggestionReachable (voteToggle s groupId now)
  | update (s : Suggestion) (r : UpdateSuggestionReq) (groupId now : String) :
      SuggestionReachable s →
      SuggestionReachable
        { applySuggestionUpdate s r with updatedAt := now, updatedByGroupId := groupId }
  | archive (s : Suggestion) (groupId now : String) :
      SuggestionReachable s →
      SuggestionReachable { s with isArchived := true, updatedAt := now, updatedByGroupId := groupId }

/-- Two suggestion states agreeing on the vote count and on the voter set
(up to order). -/
def SameVoteState (s t : Suggestion) : Prop :=
  s.votes = t.votes ∧ s.votedByGroups.Perm t.votedByGroups

/-- `n` consecutive Vote calls (each with its own timestamp). -/
def voteTimes (s : Suggestion) (g : String) (nows : List String) : Suggestion :=
  nows.foldl (fun s now => voteToggle s g now) s

/-- A demonstration ingredient owned by group "A", stored under its base
slug id, used by witnesses and counterexamples. -/
def eggIngredient : Ingredient :=
  { name := "Egg"
    aliases := []
    categories := []
    allergens := []
    nutrition := none
    metadata := none
    supportedUnits := none
    unitConversions := none
    variantOf := none
    createdAt := "t0"
    updatedAt := "t0"
    createdByGroupId := "A"
    updatedByGroupId := "A"
    isArchived := false }

/-- A one-ingredient store. -/
def eggStore : Store Ingredient := [("egg", eggIngredient)]

/-- An update request against the stored egg. -/
def eggUpdateReq : UpdateIngredientReq :=
  { id := "egg", name := some "Free range egg", aliases := none, categories := none,
    allergens := none, nutrition := none, metadata := none, supportedUnits := none,
    unitConversions := none }

/-- A suggestion created by group "A" (consolidated field set). -/
def baseSuggestion : Suggestion :=
  suggestionsCreateDoc
    { title := "Dark mode", description := "Please", category := "feature",
      priority := "medium", relatedRecipeId := none } "A" "t0"

/-- A one-suggestion store. -/
def suggestionStore : Store Suggestion := [("s1", baseSuggestion)]

/-- An update request retitling the stored suggestion. -/
def suggestionUpdateReq : UpdateSuggestionReq :=
  { id := "s1", title := some "Light mode", description := none, category := none,
    priority := none, relatedRecipeId := none, status := none }

/-- The document `ingredientsDuplicate` writes in the collision scenario
below: a copy of the egg owned by "B", stored back under id "egg". -/
def duplicatedEgg : Ingredient :=
  { name := "Egg"
    aliases := []
    categories := []
    allergens := []
    nutrition := none
    metadata := none
    supportedUnits := none
    unitConversions := none
    variantOf := some "egg"
    createdAt := "t1"
    updatedAt := "t1"
    createdByGroupId := "B"
    updatedByGroupId := "B"
    isArchived := false }

/-- The reachable state in which group "A" has already voted. -/
def votedSuggestion : Suggestion := voteToggle baseSuggestion "A" "t1"

/-- A recipe fixture for the AI-variant update scenarios, with the
embedding that `recipesCreate` would have stored for it. -/
def aiRecipe : Recipe :=
  { slug := "r"
    name := "A"
    description := "old"
    servings := 1
    ingredients := []
    steps := []
    tags := []
    categories := []
    sourceUrl := none
    imageUrl := none
    embedding := some (generateEmbedding "A old")
    variantOf := none
    createdAt := "t0"
    updatedAt := "t0"
    createdByGroupId := "G"
    updatedByGroupId := "G"
    isArchived := false }

/-- A one-recipe store for the AI-variant scenarios. -/
def aiStore : Store Recipe := [("r1", aiRecipe)]

/-- An AI-variant update request supplying no fields. -/
def emptyAIReq : UpdateRecipeAIReq :=
  { name := none, description := none, servings := none, ingredients := none,
    steps := none, tags := none, categories := none, sourceUrl := none,
    generateImage := false }

/-! ### Index-based removal: the no-shift characterization -/

/-- Specification-side meaning of index-based removal without shifting:
scanning from position `n`, keep each element whose position is not
listed in `S`. -/
def idxFilterFrom (S : List Nat) : Nat → List α → List α
  | _, [] => []
  | i, a :: as =>
    if S.contains i then idxFilterFrom S (i + 1) as
    else a :: idxFilterFrom S (i + 1) as

/-- Keep exactly the elements whose position is not listed in `S`. -/
def idxFilter (cur : List α) (S : List Nat) : List α := idxFilterFrom S 0 cur

/-! ### Substring and split correspondences for the search claims -/

/-- Specification-side substring relation: `t` occurs contiguously in
`s`. -/
def SubstringOf (t s : List Char) : Prop := ∃ pre suf, s = pre ++ t ++ suf

/-- Specification-side relevance score: the sum over query terms of the
greedy non-overlapping occurrence counts in the searched text. -/
def claimScore (terms : List String) (r : Recipe) : Nat :=
  (terms.map (fun term => countOccs term.data (searchTextData r))).sum

/-! ### Single-character split: the shape `query.split(" ")` takes -/

/-- Splitting on a single character, by direct structural recursion. -/
def splitOnChar (c : Char) : List Char → List (List Char)
  | [] => [[]]
  | a :: as =>
    if a == c then [] :: splitOnChar c as
    else
      match splitOnChar c as with
      | [] => [[a]]
      | seg :: rest => (a :: seg) :: rest

/-- The "Tomato Soup" fixture of the search scenarios. -/
def tomatoRecipe : Recipe :=
  { aiRecipe with name := "Tomato Soup", description := "A warm soup", embedding := none }

/-- A non-matching fixture. -/
def garlicRecipe : Recipe :=
  { aiRecipe with name := "Garlic Bread", description := "Crunchy", embedding := none }

/-- A two-recipe store owned by group "G". -/
def searchStore : Store Recipe := [("r1", tomatoRecipe), ("r2", garlicRecipe)]

/-- The query "tomato" with no secondary filters and the default limit. -/
def tomatoReq : SearchRecipesReq :=
  { query := "tomato", ingredients := none, tags := none, categories := none, limit := 20 }

/-- A recipe whose searched text "a b" has length 3. -/
def tinyRecipe : Recipe :=
  { aiRecipe with name := "a", description := "b", embedding := none }

/-! ## Lemmas and claim theorems -/

/-! #### Fuel irrelevance and the split/occurrence-count correspondence -/

theorem jsSplitNEAux_fuel (t : List Char) :
    ∀ fuel s, s.length ≤ fuel → jsSplitNEAux t fuel s = jsSplitNEAux t s.length s := by
  intro fuel
  induction fuel using Nat.strong_induction_on with
  | _ fuel ih =>
    intro s hs
    cases s with
    | nil => cases fuel <;> rfl
    | cons c s =>
      cases fuel with
      | zero => simp at hs
      | succ f =>
        simp only [List.length_cons] at hs ⊢
        simp only [jsSplitNEAux]
        by_cases h : t.length ≠ 0 ∧ startsWithL (c :: s) t
        · simp only [if_pos h]
          have hd : (List.drop (t.length - 1) s).length ≤ f := by
            simp only [List.length_drop]; omega
          have hd' : (List.drop (t.length - 1) s).length ≤ s.length := by
            simp only [List.length_drop]; omega
          rw [ih f (by omega) _ hd, ih s.length (by omega) _ hd']
        · simp only [if_neg h]
          rw [ih f (by omega) s (by omega), ih s.length (by omega) s (le_refl _)]

theorem countOccsAux_fuel (t : List Char) :
    ∀ fuel s, s.length ≤ fuel → countOccsAux t fuel s = countOccsAux t s.length s := by
  intro fuel
  induction fuel using Nat.strong_induction_on with
  | _ fuel ih =>
    intro s hs
    cases s with
    | nil => cases fuel <;> rfl
    | cons c s =>
      cases fuel with
      | zero => simp at hs
      | succ f =>
        simp only [List.length_cons] at hs ⊢
        simp only [countOccsAux]
        by_cases h : t.length ≠ 0 ∧ startsWithL (c :: s) t
        · simp only [if_pos h]
          have hd : (List.drop (t.length - 1) s).length ≤ f := by
            simp only [List.length_drop]; omega
          have hd' : (List.drop (t.length - 1) s).length ≤ s.length := by
            simp only [List.length_drop]; omega
          rw [ih f (by omega) _ hd, ih s.length (by omega) _ hd']
        · simp only [if_neg h]
          rw [ih f (by omega) s (by omega), ih s.length (by omega) s (le_refl _)]

/-- The greedy split always produces one more segment than there are greedy
non-overlapping occurrences of the separator. -/
theorem jsSplitNEAux_length (t : List Char) :
    ∀ fuel s, s.length ≤ fuel →
      (jsSplitNEAux t fuel s).length = countOccsAux t fuel s + 1 := by
  intro fuel
  induction fuel using Nat.strong_induction_on with
  | _ fuel ih =>
    intro s hs
    cases s with
    | nil => cases fuel <;> rfl
    | cons c s =>
      cases fuel with
      | zero => simp at hs
      | succ f =>
        simp only [List.length_cons] at hs
        simp only [jsSplitNEAux, countOccsAux]
        by_cases h : t.length ≠ 0 ∧ startsWithL (c :: s) t
        · simp only [if_pos h, List.length_cons]
          have hd : (List.drop (t.length - 1) s).length ≤ f := by
            simp only [List.length_drop]; omega
          rw [ih f (by omega) _ hd]
        · simp only [if_neg h]
          have h1 : s.length ≤ f := by omega
          have hrec := ih f (by omega) s h1
          cases heq : jsSplitNEAux t f s with
          | nil => rw [heq] at hrec; simp at hrec
          | cons seg rest =>
            rw [heq] at hrec
            simp only [List.length_cons] at hrec ⊢
            omega

theorem valOfDigits_append (l : List Char) (c : Char) :
    valOfDigits (l ++ [c]) = 10 * valOfDigits l + digitVal c := by
  simp [valOfDigits, List.foldl_append]

theorem digitVal_digitChar (n : Nat) (h : n < 10) :
    digitVal (Nat.digitChar n) = n := by
  interval_cases n <;> rfl

theorem toDigitsCore_spec :
    ∀ n fuel ds, n < fuel →
      ∃ l, Nat.toDigitsCore 10 fuel n ds = l ++ ds ∧ l ≠ [] ∧ valOfDigits l = n := by
  intro n
  induction n using Nat.strong_induction_on with
  | _ n ih =>
    intro fuel ds hfuel
    cases fuel with
    | zero => omega
    | succ f =>
      simp only [Nat.toDigitsCore]
      by_cases h0 : n / 10 = 0
      · simp only [h0, if_pos rfl]
        refine ⟨[Nat.digitChar (n % 10)], rfl, by simp, ?_⟩
        have hn : n < 10 := by omega
        have hmod : n % 10 = n := Nat.mod_eq_of_lt hn
        simp only [valOfDigits, List.foldl_cons, List.foldl_nil, Nat.mul_zero, Nat.zero_add]
        rw [hmod, digitVal_digitChar n hn]
      · simp only [if_neg h0]
        have hn10 : 10 ≤ n := by
          by_contra hc
          exact h0 (Nat.div_eq_of_lt (by omega))
        have hlt : n / 10 < n := Nat.div_lt_self (by omega) (by norm_num)
        have hfl : n / 10 < f := by omega
        obtain ⟨l, hl, hne, hval⟩ := ih (n / 10) hlt f (Nat.digitChar (n % 10) :: ds) hfl
        refine ⟨l ++ [Nat.digitChar (n % 10)], by simp [hl], by simp, ?_⟩
        rw [valOfDigits_append, hval,
          digitVal_digitChar _ (Nat.mod_lt _ (by norm_num))]
        omega

theorem natRepr_injective : Function.Injective Nat.repr := by
  intro m n h
  obtain ⟨lm, hm, _, hvm⟩ := toDigitsCore_spec m (m + 1) [] (by omega)
  obtain ⟨ln, hn, _, hvn⟩ := toDigitsCore_spec n (n + 1) [] (by omega)
  have hdata : (Nat.repr m).data = (Nat.repr n).data := by rw [h]
  have : lm = ln := by
    have em : (Nat.repr m).data = lm := by
      show (Nat.toDigitsCore 10 (m + 1) m []).asString.data = lm
      rw [hm]; simp [List.asString]
    have en : (Nat.repr n).data = ln := by
      show (Nat.toDigitsCore 10 (n + 1) n []).asString.data = ln
      rw [hn]; simp [List.asString]
    rw [em, en] at hdata
    exact hdata
  rw [← hvm, ← hvn, this]

theorem natRepr_length_pos (n : Nat) : 0 < (Nat.repr n).length := by
  obtain ⟨l, hl, hne, _⟩ := toDigitsCore_spec n (n + 1) [] (by omega)
  have hd : (Nat.repr n).data = l := by
    show (Nat.toDigitsCore 10 (n + 1) n []).asString.data = l
    rw [hl]; simp [List.asString]
  have hlen : (Nat.repr n).length = l.length := by
    rw [String.length, hd]
  cases l with
  | nil => exact absurd rfl hne
  | cons a l => simp [hlen]

theorem slugCandidate_injective (base : String) :
    Function.Injective (slugCandidate base) := by
  have hlen : ∀ k, (slugCandidate base (k + 1)).length =
      base.length + 1 + (Nat.repr (k + 2)).length := by
    intro k
    simp only [slugCandidate, String.length_append]
    have : ("-" : String).length = 1 := rfl
    omega
  intro i j h
  cases i with
  | zero =>
    cases j with
    | zero => rfl
    | succ j =>
      exfalso
      have h2 := natRepr_length_pos (j + 2)
      have := congrArg String.length h
      rw [hlen j] at this
      simp only [slugCandidate] at this
      omega
  | succ i =>
    cases j with
    | zero =>
      exfalso
      have h2 := natRepr_length_pos (i + 2)
      have := congrArg String.length h
      rw [hlen i] at this
      simp only [slugCandidate] at this
      omega
    | succ j =>
      simp only [slugCandidate] at h
      have hdata := congrArg String.data h
      simp only [String.data_append] at hdata
      have h1 := List.append_cancel_left hdata
      have h2 : Nat.repr (i + 2) = Nat.repr (j + 2) := String.ext h1
      have := natRepr_injective h2
      omega

theorem slugTaken_mem {store : List SlugRecord} {s : String}
    (h : slugTaken store s = true) : s ∈ storedSlugs store := by
  simp only [slugTaken, List.any_eq_true, Bool.and_eq_true, beq_iff_eq] at h
  obtain ⟨d, hd, harch, hslug⟩ := h
  simp only [storedSlugs, List.mem_filterMap]
  exact ⟨d, hd, by simp [harch, hslug]⟩

/-- Pigeonhole: among the first `store.length + 1` candidates, at least one
is free, because the candidates are pairwise-distinct strings while the
store holds at most `store.length` non-archived slugs. -/
theorem exists_free_candidate (store : List SlugRecord) (base : String) :
    ∃ j, j ≤ store.length ∧ slugTaken store (slugCandidate base j) = false := by
  by_contra hc
  push_neg at hc
  have hall : ∀ j ≤ store.length, slugTaken store (slugCandidate base j) = true := by
    intro j hj
    have := hc j hj
    revert this
    cases slugTaken store (slugCandidate base j) <;> simp
  set n := store.length with hn
  have hsub : (Finset.range (n + 1)).image (slugCandidate base) ⊆
      (storedSlugs store).toFinset := by
    intro s hs
    simp only [Finset.mem_image, Finset.mem_range] at hs
    obtain ⟨j, hj, rfl⟩ := hs
    exact List.mem_toFinset.mpr (slugTaken_mem (hall j (by omega)))
  have hcard1 : ((Finset.range (n + 1)).image (slugCandidate base)).card = n + 1 := by
    rw [Finset.card_image_of_injective _ (slugCandidate_injective base), Finset.card_range]
  have hcard2 := Finset.card_le_card hsub
  have hcard3 := List.toFinset_card_le (storedSlugs store)
  have hcard4 : (storedSlugs store).length ≤ n := List.length_filterMap_le _ _
  omega

/-- The loop returns the first free candidate at or after position `k`,
provided a free candidate lies within the fuel window. -/
theorem slugifyUniqueAux_spec (store : List SlugRecord) (base : String) :
    ∀ fuel k, (∃ j, j < fuel ∧ slugTaken store (slugCandidate base (k + j)) = false) →
      ∃ j, j < fuel ∧
        slugifyUniqueAux store base fuel k = some (slugCandidate base (k + j)) ∧
        slugTaken store (slugCandidate base (k + j)) = false ∧
        ∀ i, i < j → slugTaken store (slugCandidate base (k + i)) = true := by
  intro fuel
  induction fuel with
  | zero =>
    intro k ⟨j, hj, _⟩
    omega
  | succ f ih =>
    intro k ⟨j, hj, hfree⟩
    by_cases hk : slugTaken store (slugCandidate base k) = true
    · have hjne : j ≠ 0 := by
        intro hc
        rw [hc] at hfree
        simp at hfree
        rw [hfree] at hk
        simp at hk
      have hex : ∃ j', j' < f ∧
          slugTaken store (slugCandidate base (k + 1 + j')) = false := by
        refine ⟨j - 1, by omega, ?_⟩
        have : k + 1 + (j - 1) = k + j := by omega
        rw [this]
        exact hfree
      obtain ⟨j', hj', hres, hfree', hbefore⟩ := ih (k + 1) hex
      refine ⟨j' + 1, by omega, ?_, ?_, ?_⟩
      · simp only [slugifyUniqueAux, if_pos hk]
        have : k + (j' + 1) = k + 1 + j' := by omega
        rw [this]
        exact hres
      · have : k + (j' + 1) = k + 1 + j' := by omega
        rw [this]
        exact hfree'
      · intro i hi
        cases i with
        | zero => simpa using hk
        | succ i =>
          have : k + (i + 1) = k + 1 + i := by omega
          rw [this]
          exact hbefore i (by omega)
    · have hkf : slugTaken store (slugCandidate base k) = false := by
        revert hk
        cases slugTaken store (slugCandidate base k) <;> simp
      refine ⟨0, by omega, ?_, by simpa using hkf, by omega⟩
      simp only [slugifyUniqueAux, hkf, Bool.false_eq_true, if_false]
      simp

/-- Full characterization of `slugifyUnique`: it always returns a slug, and
that slug is the first candidate in `base, base-2, base-3, …` that no
non-archived document of the collection holds. -/
theorem slugifyUnique_spec (store : List SlugRecord) (name : String) :
    ∃ k, slugifyUnique store name = some (slugCandidate (slugifyBase name) k) ∧
      slugTaken store (slugCandidate (slugifyBase name) k) = false ∧
      ∀ i, i < k → slugTaken store (slugCandidate (slugifyBase name) i) = true := by
  obtain ⟨j, hj, hfree⟩ := exists_free_candidate store (slugifyBase name)
  have hex : ∃ j', j' < store.length + 1 ∧
      slugTaken store (slugCandidate (slugifyBase name) (0 + j')) = false := by
    refine ⟨j, by omega, ?_⟩
    simpa using hfree
  obtain ⟨k, hk, hres, hfreek, hbefore⟩ :=
    slugifyUniqueAux_spec store (slugifyBase name) (store.length + 1) 0 hex
  refine ⟨k, ?_, by simpa using hfreek, fun i hi => by simpa using hbefore i hi⟩
  simpa [slugifyUnique] using hres

theorem slugifyUnique_eq_slugifyUniqueT (store : List SlugRecord) (name : String) :
    slugifyUnique store name = some (slugifyUniqueT store name) := by
  obtain ⟨k, hk, -, -⟩ := slugifyUnique_spec store name
  rw [slugifyUniqueT, hk]
  rfl

theorem filter_bne_eq_erase {l : List String} {g : String} (hnd : l.Nodup) :
    l.filter (fun x => x != g) = l.erase g :=
  (hnd.erase_eq_filter g).symm

theorem voteToggle_mem {s : Suggestion} {g : String} (now : String)
    (hmem : s.votedByGroups.contains g = true) :
    (voteToggle s g now).votes = max 0 (s.votes - 1) ∧
    (voteToggle s g now).votedByGroups = s.votedByGroups.filter (fun x => x != g) := by
  have hm : g ∈ s.votedByGroups := by simpa using hmem
  constructor <;> simp [voteToggle, hm]

theorem voteToggle_not_mem {s : Suggestion} {g : String} (now : String)
    (hmem : s.votedByGroups.contains g = false) :
    (voteToggle s g now).votes = s.votes + 1 ∧
    (voteToggle s g now).votedByGroups = s.votedByGroups ++ [g] := by
  have hm : g ∉ s.votedByGroups := by simpa using hmem
  constructor <;> simp [voteToggle, hm]

theorem voteToggle_good {s : Suggestion} (hgood : GoodSuggestion s) (g now : String) :
    GoodSuggestion (voteToggle s g now) := by
  obtain ⟨hv, hnd⟩ := hgood
  by_cases hmem : s.votedByGroups.contains g = true
  · have hm : g ∈ s.votedByGroups := by simpa using hmem
    have hlen : 1 ≤ s.votedByGroups.length := List.length_pos.mpr (List.ne_nil_of_mem hm)
    obtain ⟨hv', hg'⟩ := voteToggle_mem now hmem
    constructor
    · rw [hv', hg', filter_bne_eq_erase hnd, List.length_erase_of_mem hm, hv,
        max_eq_right (by omega)]
      omega
    · rw [hg']
      exact hnd.filter _
  · have hmf : s.votedByGroups.contains g = false := by
      revert hmem
      cases s.votedByGroups.contains g <;> simp
    have hm : g ∉ s.votedByGroups := by simpa using hmf
    obtain ⟨hv', hg'⟩ := voteToggle_not_mem now hmf
    constructor
    · rw [hv', hg', hv]
      simp
    · rw [hg']
      simp [List.nodup_append, hnd, hm]

theorem reachable_good {s : Suggestion} (h : SuggestionReachable s) : GoodSuggestion s := by
  induction h with
  | create r groupId now => exact ⟨rfl, List.nodup_nil⟩
  | duplicate original r groupId now => exact ⟨rfl, List.nodup_nil⟩
  | vote s groupId now _ ih => exact voteToggle_good ih groupId now
  | update s r groupId now _ ih =>
    obtain ⟨hv, hnd⟩ := ih
    exact ⟨hv, hnd⟩
  | archive s groupId now _ ih =>
    obtain ⟨hv, hnd⟩ := ih
    exact ⟨hv, hnd⟩

theorem SameVoteState.refl (s : Suggestion) : SameVoteState s s :=
  ⟨rfl, List.Perm.refl _⟩

theorem SameVoteState.trans {s t u : Suggestion}
    (h1 : SameVoteState s t) (h2 : SameVoteState t u) : SameVoteState s u :=
  ⟨h1.1.trans h2.1, h1.2.trans h2.2⟩

/-- `voteToggle` respects vote-state equivalence (the toggle looks only at
membership, the count, and the voter list up to permutation). -/
theorem voteToggle_congr {s t : Suggestion} (h : SameVoteState s t) (g n1 n2 : String) :
    SameVoteState (voteToggle s g n1) (voteToggle t g n2) := by
  obtain ⟨hv, hperm⟩ := h
  by_cases hmem : s.votedByGroups.contains g = true
  · have hms : g ∈ s.votedByGroups := by simpa using hmem
    have hmt : t.votedByGroups.contains g = true := by
      simpa using hperm.mem_iff.mp hms
    obtain ⟨hsv, hsg⟩ := voteToggle_mem n1 hmem
    obtain ⟨htv, htg⟩ := voteToggle_mem n2 hmt
    exact ⟨by rw [hsv, htv, hv], by rw [hsg, htg]; exact hperm.filter _⟩
  · have hmfs : s.votedByGroups.contains g = false := by
      revert hmem
      cases s.votedByGroups.contains g <;> simp
    have hms : g ∉ s.votedByGroups := by simpa using hmfs
    have hmt : t.votedByGroups.contains g = false := by
      simpa using fun hc => hms (hperm.mem_iff.mpr hc)
    obtain ⟨hsv, hsg⟩ := voteToggle_not_mem n1 hmfs
    obtain ⟨htv, htg⟩ := voteToggle_not_mem n2 hmt
    exact ⟨by rw [hsv, htv, hv], by rw [hsg, htg]; exact hperm.append_right _⟩

/-- Toggling twice returns the vote state (count and voter set) to its
pre-call value, on any state satisfying the invariant. -/
theorem voteToggle_twice {s : Suggestion} (hgood : GoodSuggestion s) (g n1 n2 : String) :
    SameVoteState (voteToggle (voteToggle s g n1) g n2) s := by
  obtain ⟨hv, hnd⟩ := hgood
  by_cases hmem : s.votedByGroups.contains g = true
  · have hm : g ∈ s.votedByGroups := by simpa using hmem
    have hlen : 1 ≤ s.votedByGroups.length := List.length_pos.mpr (List.ne_nil_of_mem hm)
    obtain ⟨h1v, h1g⟩ := voteToggle_mem n1 hmem
    have h1g' : (voteToggle s g n1).votedByGroups = s.votedByGroups.erase g := by
      rw [h1g, filter_bne_eq_erase hnd]
    have hm2 : (voteToggle s g n1).votedByGroups.contains g = false := by
      rw [h1g']
      simpa using hnd.not_mem_erase
    obtain ⟨h2v, h2g⟩ := voteToggle_not_mem n2 hm2
    constructor
    · rw [h2v, h1v, max_eq_right (by rw [hv]; omega)]
      omega
    · rw [h2g, h1g']
      exact (List.perm_append_singleton g _).trans (List.perm_cons_erase hm).symm
  · have hmf : s.votedByGroups.contains g = false := by
      revert hmem
      cases s.votedByGroups.contains g <;> simp
    have hm : g ∉ s.votedByGroups := by simpa using hmf
    obtain ⟨h1v, h1g⟩ := voteToggle_not_mem n1 hmf
    have hm2 : (voteToggle s g n1).votedByGroups.contains g = true := by
      rw [h1g]
      simp
    obtain ⟨h2v, h2g⟩ := voteToggle_mem n2 hm2
    constructor
    · rw [h2v, h1v, max_eq_right (by rw [hv]; omega)]
      omega
    · rw [h2g, h1g, List.filter_append, filter_bne_eq_erase hnd, List.erase_of_not_mem hm]
      simp

theorem voteTimes_good {s : Suggestion} (hgood : GoodSuggestion s) (g : String)
    (nows : List String) : GoodSuggestion (voteTimes s g nows) := by
  induction nows using List.reverseRecOn with
  | nil => exact hgood
  | append_singleton ns n ih =>
    rw [voteTimes, List.foldl_append]
    exact voteToggle_good ih g n

theorem voteTimes_parity {s : Suggestion} (hgood : GoodSuggestion s) (g : String)
    (nows : List String) :
    (nows.length % 2 = 0 → SameVoteState (voteTimes s g nows) s) ∧
    (nows.length % 2 = 1 → SameVoteState (voteTimes s g nows) (voteToggle s g "")) := by
  induction nows using List.reverseRecOn with
  | nil => exact ⟨fun _ => SameVoteState.refl s, by simp⟩
  | append_singleton ns n ih =>
    have hstep : voteTimes s g (ns ++ [n]) = voteToggle (voteTimes s g ns) g n := by
      rw [voteTimes, List.foldl_append]
      rfl
    constructor
    · intro heven
      have hodd : ns.length % 2 = 1 := by
        simp only [List.length_append, List.length_cons, List.length_nil] at heven
        omega
      have hprev := ih.2 hodd
      rw [hstep]
      have hc := voteToggle_congr hprev g n ""
      exact hc.trans (voteToggle_twice hgood g "" "")
    · intro hodd
      have heven : ns.length % 2 = 0 := by
        simp only [List.length_append, List.length_cons, List.length_nil] at hodd
        omega
      have hprev := ih.1 heven
      rw [hstep]
      exact voteToggle_congr hprev g n ""

/-! ## Claim theorems -/

/-- C9: for every document and caller group, the update-mode audit stamp
(`setAuditFields` with `isUpdate = true`) assigns exactly `updatedAt` and
`updatedByGroupId` and leaves `createdAt`, `createdByGroupId`,
`isArchived` and every other field (`rest`) of the document unchanged. -/
theorem setAuditFields_update_frame (α : Type) (doc : AuditedDoc α) (groupId now : String) :
    (setAuditFields doc groupId now true).updatedAt = some now ∧
    (setAuditFields doc groupId now true).updatedByGroupId = some groupId ∧
    (setAuditFields doc groupId now true).createdAt = doc.createdAt ∧
    (setAuditFields doc groupId now true).createdByGroupId = doc.createdByGroupId ∧
    (setAuditFields doc groupId now true).isArchived = doc.isArchived ∧
    (setAuditFields doc groupId now true).rest = doc.rest := by
  simp [setAuditFields]

/-- C6: for every name and collection state, `slugifyUnique` returns a
slug; it is the normalized name when no non-archived document holds that
slug, and otherwise the first free candidate in the sequence
`base-2, base-3, …`; the returned slug differs from the slug of every
non-archived document, and archived documents never block a candidate
(`slugTaken` inspects only non-archived documents). -/
theorem slugifyUnique_claim (store : List SlugRecord) (name : String) :
    ∃ k, slugifyUnique store name = some (slugCandidate (slugifyBase name) k) ∧
      slugTaken store (slugCandidate (slugifyBase name) k) = false ∧
      (∀ i, i < k → slugTaken store (slugCandidate (slugifyBase name) i) = true) ∧
      (slugTaken store (slugifyBase name) = false →
        slugifyUnique store name = some (slugifyBase name)) ∧
      (∀ d ∈ store, d.isArchived = false →
        d.slug ≠ some (slugCandidate (slugifyBase name) k)) := by
  obtain ⟨k, hres, hfree, hbefore⟩ := slugifyUnique_spec store name
  refine ⟨k, hres, hfree, hbefore, ?_, ?_⟩
  · intro hbase
    have hk0 : k = 0 := by
      by_contra hne
      have := hbefore 0 (by omega)
      simp only [slugCandidate] at this
      rw [this] at hbase
      exact absurd hbase (by simp)
    rw [hk0] at hres
    simpa [slugCandidate] using hres
  · intro d hd harch hc
    have : slugTaken store (slugCandidate (slugifyBase name) k) = true := by
      simp only [slugTaken, List.any_eq_true, Bool.and_eq_true, beq_iff_eq]
      exact ⟨d, hd, by simp [harch], by simp [hc]⟩
    rw [this] at hfree
    exact absurd hfree (by simp)

/-- C1 (amended): ingredients, recipes (consolidated handlers) and
suggestions in the consolidated variant enforce single-writer ownership on
Update and Delete: a caller group different from `createdByGroupId` gets
the access-denied error naming the owner and the whole store is left
unchanged, while the owning group's call succeeds.  (The
`suggestions.ts` variant's Update/Delete perform no such check — see the
counterexample.) -/
theorem ownership_enforced :
    (∀ (st : Store Ingredient) (g now : String) (r : UpdateIngredientReq) (doc : Ingredient),
      storeGet st r.id = some doc → doc.isArchived = false →
        (g ≠ doc.createdByGroupId →
          ingredientsUpdate st g r now =
            (st, Except.error (HandlerError.accessDenied "ingredients" r.id doc.createdByGroupId g))) ∧
        (g = doc.createdByGroupId → (ingredientsUpdate st g r now).2.isOk = true)) ∧
    (∀ (st : Store Ingredient) (g id now : String) (doc : Ingredient),
      storeGet st id = some doc → doc.isArchived = false →
        (g ≠ doc.createdByGroupId →
          ingredientsDelete st g id now =
            (st, Except.error (HandlerError.accessDenied "ingredients" id doc.createdByGroupId g))) ∧
        (g = doc.createdByGroupId → (ingredientsDelete st g id now).2.isOk = true)) ∧
    (∀ (st : Store Recipe) (g now : String) (r : UpdateRecipeReq) (doc : Recipe),
      storeGet st r.id = some doc → doc.isArchived = false →
      recipeArrayOpConflict r = false →
        (g ≠ doc.createdByGroupId →
          recipesUpdate st g r now =
            (st, Except.error (HandlerError.accessDenied "recipes" r.id doc.createdByGroupId g))) ∧
        (g = doc.createdByGroupId → (recipesUpdate st g r now).2.isOk = true)) ∧
    (∀ (st : Store Recipe) (g id now : String) (doc : Recipe),
      storeGet st id = some doc → doc.isArchived = false →
        (g ≠ doc.createdByGroupId →
          recipesDelete st g id now =
            (st, Except.error (HandlerError.accessDenied "recipes" id doc.createdByGroupId g))) ∧
        (g = doc.createdByGroupId → (recipesDelete st g id now).2.isOk = true)) ∧
    (∀ (st : Store Suggestion) (g now : String) (r : UpdateSuggestionReq) (doc : Suggestion),
      storeGet st r.id = some doc → doc.isArchived = false →
        (g ≠ doc.createdByGroupId →
          suggestionsUpdate st g r now =
            (st, Except.error (HandlerError.accessDenied "suggestions" r.id doc.createdByGroupId g))) ∧
        (g = doc.createdByGroupId → (suggestionsUpdate st g r now).2.isOk = true)) ∧
    (∀ (st : Store Suggestion) (g id now : String) (doc : Suggestion),
      storeGet st id = some doc → doc.isArchived = false →
        (g ≠ doc.createdByGroupId →
          suggestionsDelete st g id now =
            (st, Except.error (HandlerError.accessDenied "suggestions" id doc.createdByGroupId g))) ∧
        (g = doc.createdByGroupId → (suggestionsDelete st g id now).2.isOk = true)) := by
  refine ⟨?_, ?_, ?_, ?_, ?_, ?_⟩
  · intro st g now r doc hget harch
    constructor
    · intro hne
      simp [ingredientsUpdate, hget, harch, validateOwnership, canEdit,
        beq_eq_false_iff_ne, Ne.symm hne]
    · intro heq
      simp [ingredientsUpdate, hget, harch, validateOwnership, canEdit, heq, Except.isOk, Except.toBool]
  · intro st g id now doc hget harch
    constructor
    · intro hne
      simp [ingredientsDelete, hget, harch, validateOwnership, canEdit,
        beq_eq_false_iff_ne, Ne.symm hne]
    · intro heq
      simp [ingredientsDelete, hget, harch, validateOwnership, canEdit, heq, Except.isOk, Except.toBool]
  · intro st g now r doc hget harch hconf
    constructor
    · intro hne
      simp [recipesUpdate, hconf, hget, harch, validateOwnership, canEdit,
        beq_eq_false_iff_ne, Ne.symm hne]
    · intro heq
      simp [recipesUpdate, hconf, hget, harch, validateOwnership, canEdit, heq, Except.isOk, Except.toBool]
  · intro st g id now doc hget harch
    constructor
    · intro hne
      simp [recipesDelete, hget, harch, validateOwnership, canEdit,
        beq_eq_false_iff_ne, Ne.symm hne]
    · intro heq
      simp [recipesDelete, hget, harch, validateOwnership, canEdit, heq, Except.isOk, Except.toBool]
  · intro st g now r doc hget harch
    constructor
    · intro hne
      simp [suggestionsUpdate, hget, harch, validateOwnership, canEdit,
        beq_eq_false_iff_ne, Ne.symm hne]
    · intro heq
      simp [suggestionsUpdate, hget, harch, validateOwnership, canEdit, heq, Except.isOk, Except.toBool]
  · intro st g id now doc hget harch
    constructor
    · intro hne
      simp [suggestionsDelete, hget, harch, validateOwnership, canEdit,
        beq_eq_false_iff_ne, Ne.symm hne]
    · intro heq
      simp [suggestionsDelete, hget, harch, validateOwnership, canEdit, heq, Except.isOk, Except.toBool]

theorem ownership_enforced_witness :
    (ingredientsUpdate eggStore "B" eggUpdateReq "t1" =
      (eggStore, Except.error (HandlerError.accessDenied "ingredients" "egg" "A" "B"))) ∧
    ((ingredientsUpdate eggStore "A" eggUpdateReq "t1").2.isOk = true) := by
  have h := ownership_enforced.1
  have hB := (h eggStore "B" "t1" eggUpdateReq eggIngredient rfl rfl).1 (by decide)
  have hA := (h eggStore "A" "t1" eggUpdateReq eggIngredient rfl rfl).2 rfl
  exact ⟨hB, hA⟩

/-- C1 counterexample: `suggestionsUpdate` in
`src/functions/src/suggestions.ts` has no ownership check, so group "B"
updating a suggestion owned by group "A" succeeds and modifies the stored
document, where the claim demands an access-denied failure that leaves the
document unchanged. -/
theorem suggestionsUpdateSilo_no_ownership :
    "B" ≠ baseSuggestion.createdByGroupId ∧
    baseSuggestion.isArchived = false ∧
    (∃ v, (suggestionsUpdateSilo suggestionStore "B" suggestionUpdateReq "t1").2 =
      Except.ok v ∧ v.title = "Light mode") ∧
    (suggestionsUpdateSilo suggestionStore "B" suggestionUpdateReq "t1").2 ≠
      Except.error (HandlerError.accessDenied "suggestions" "s1" "A" "B") ∧
    storeGet (suggestionsUpdateSilo suggestionStore "B" suggestionUpdateReq "t1").1 "s1" ≠
      some baseSuggestion := by
  refine ⟨by decide, rfl, ⟨_, rfl, rfl⟩, ?_, by decide⟩
  intro hc
  have : (suggestionsUpdateSilo suggestionStore "B" suggestionUpdateReq "t1").2.isOk = true := rfl
  rw [hc] at this
  exact absurd this (by decide)

/-- C2 (code-bug evidence): ingredient documents never store a `slug`
field, so the collision query inside `slugifyUnique` can never match in
the ingredients collection; duplicating the ingredient stored under id
"egg" (name "Egg") with no overrides therefore computes the new id "egg"
— equal to the original's id — and the `set` overwrites the original
document instead of creating a fresh one. -/
theorem ingredientsDuplicate_id_collision :
    (∃ doc, (ingredientsDuplicate eggStore "B"
        { id := "egg", name := none, aliases := none, categories := none,
          allergens := none, nutrition := none, metadata := none,
          supportedUnits := none, unitConversions := none } "t1").2 =
      Except.ok ("egg", doc) ∧
      doc.variantOf = some "egg" ∧ doc.createdByGroupId = "B") ∧
    storeGet (ingredientsDuplicate eggStore "B"
        { id := "egg", name := none, aliases := none, categories := none,
          allergens := none, nutrition := none, metadata := none,
          supportedUnits := none, unitConversions := none } "t1").1 "egg" ≠
      some eggIngredient := by
  refine ⟨⟨duplicatedEgg, by rfl, by decide, by decide⟩, by decide⟩

/-- C4 (amended): starting from any reachable suggestion state, an even
number of consecutive Vote calls returns `votes` and (as a set)
`votedByGroups` to their pre-call values; an odd number of calls yields
the single-toggle state relative to the baseline: when the group had not
voted, its membership is added exactly once and `votes` is incremented by
exactly 1, and when it had already voted, its membership is removed and
`votes` is decremented by exactly 1. -/
theorem vote_parity (s : Suggestion) (g : String) (nows : List String)
    (hreach : SuggestionReachable s) :
    (nows.length % 2 = 0 →
      (voteTimes s g nows).votes = s.votes ∧
      (voteTimes s g nows).votedByGroups.Perm s.votedByGroups) ∧
    (nows.length % 2 = 1 →
      (g ∉ s.votedByGroups →
        (voteTimes s g nows).votes = s.votes + 1 ∧
        (voteTimes s g nows).votedByGroups.Perm (s.votedByGroups ++ [g])) ∧
      (g ∈ s.votedByGroups →
        (voteTimes s g nows).votes = s.votes - 1 ∧
        (voteTimes s g nows).votedByGroups.Perm (s.votedByGroups.erase g))) := by
  have hgood := reachable_good hreach
  have hpar := voteTimes_parity hgood g nows
  refine ⟨hpar.1, ?_⟩
  intro hodd
  have hst := hpar.2 hodd
  constructor
  · intro hnm
    have hmf : s.votedByGroups.contains g = false := by simpa using hnm
    obtain ⟨hv', hg'⟩ := voteToggle_not_mem "" hmf
    refine ⟨hst.1.trans hv', ?_⟩
    have := hst.2
    rw [hg'] at this
    exact this
  · intro hm
    have hmt : s.votedByGroups.contains g = true := by simpa using hm
    obtain ⟨hv', hg'⟩ := voteToggle_mem "" hmt
    have hlen : 1 ≤ s.votedByGroups.length := List.length_pos.mpr (List.ne_nil_of_mem hm)
    refine ⟨?_, ?_⟩
    · have := hst.1.trans hv'
      rw [max_eq_right (by rw [hgood.1]; omega)] at this
      exact this
    · have := hst.2
      rw [hg', filter_bne_eq_erase hgood.2] at this
      exact this

/-- The even-parity part of the vote claim at a concrete reachable state:
two consecutive votes by "A" on a fresh suggestion restore the zero-vote
state. -/
theorem vote_parity_witness :
    (voteTimes baseSuggestion "A" ["t1", "t2"]).votes = baseSuggestion.votes ∧
    (voteTimes baseSuggestion "A" ["t1", "t2"]).votedByGroups.Perm
      baseSuggestion.votedByGroups :=
  (vote_parity baseSuggestion "A" ["t1", "t2"]
    (SuggestionReachable.create _ _ _)).1 (by decide)

/-- C4 counterexample: from the reachable baseline `votedSuggestion`
(group "A" has already voted, votes = 1), a single — odd — further Vote
call by "A" removes the membership and decrements `votes` to 0, instead
of adding one membership of "A" and incrementing `votes` by 1 as the
claim demands of every reachable baseline. -/
theorem vote_odd_not_increment :
    SuggestionReachable votedSuggestion ∧
    votedSuggestion.votes = 1 ∧
    votedSuggestion.votedByGroups = ["A"] ∧
    (voteTimes votedSuggestion "A" ["t2"]).votes = 0 ∧
    (voteTimes votedSuggestion "A" ["t2"]).votes ≠ votedSuggestion.votes + 1 ∧
    "A" ∉ (voteTimes votedSuggestion "A" ["t2"]).votedByGroups := by
  refine ⟨SuggestionReachable.vote _ _ _ (SuggestionReachable.create _ _ _),
    by decide, by decide, by decide, by decide, by decide⟩

/-- C5: `votes = |votedByGroups|` holds in every suggestion state
reachable through the public operations; Create and Duplicate initialize
`votes := 0` and `votedByGroups := []`; the Update merge touches neither
field (and the soft-delete write touches only `isArchived` plus the audit
stamp, as its `SuggestionReachable.archive` constructor records). -/
theorem votes_eq_card :
    (∀ s : Suggestion, SuggestionReachable s →
      s.votes = (s.votedByGroups.length : Int)) ∧
    (∀ (r : CreateSuggestionReq) (g now : String),
      (suggestionsCreateDoc r g now).votes = 0 ∧
      (suggestionsCreateDoc r g now).votedByGroups = []) ∧
    (∀ (o : Suggestion) (r : DuplicateSuggestionReq) (g now : String),
      (suggestionsDuplicateDoc o r g now).votes = 0 ∧
      (suggestionsDuplicateDoc o r g now).votedByGroups = []) ∧
    (∀ (s : Suggestion) (r : UpdateSuggestionReq),
      (applySuggestionUpdate s r).votes = s.votes ∧
      (applySuggestionUpdate s r).votedByGroups = s.votedByGroups) :=
  ⟨fun _ hs => (reachable_good hs).1,
    fun _ _ _ => ⟨rfl, rfl⟩,
    fun _ _ _ _ => ⟨rfl, rfl⟩,
    fun _ _ => ⟨rfl, rfl⟩⟩

/-- The invariant at a concrete reachable state (one vote by "B"). -/
theorem votes_eq_card_witness :
    (voteTimes baseSuggestion "B" ["t1"]).votes =
      ((voteTimes baseSuggestion "B" ["t1"]).votedByGroups.length : Int) :=
  votes_eq_card.1 _
    (SuggestionReachable.vote _ _ _ (SuggestionReachable.create _ _ _))

/-- C8 (amended): the AI-variant `recipesUpdate` regenerates the stored
embedding exactly when the request supplies a truthy (non-empty) name or
description; the regenerated embedding is computed from the supplied
truthy name (else the stored name), a space, and the supplied truthy
description (else the stored description).  A request supplying only
falsy values — which can still change the stored description, to the
empty string — leaves the embedding untouched. -/
theorem recipesUpdateAI_embedding (st : Store Recipe) (g id now : String)
    (r : UpdateRecipeAIReq) (doc : Recipe)
    (hget : storeGet st id = some doc) (howner : doc.createdByGroupId = g) :
    (recipesUpdateAI st g id r now).2 = Except.ok (recipesUpdateAIDoc doc r g now) ∧
    ((jsTruthy r.name || jsTruthy r.description) = true →
      (recipesUpdateAIDoc doc r g now).embedding =
        some (generateEmbedding
          (jsOr r.name doc.name ++ " " ++ jsOr r.description doc.description))) ∧
    ((jsTruthy r.name || jsTruthy r.description) = false →
      (recipesUpdateAIDoc doc r g now).embedding = doc.embedding) := by
  refine ⟨?_, ?_, ?_⟩
  · simp [recipesUpdateAI, hget, howner]
  · intro hcond
    simp only [recipesUpdateAIDoc, hcond, if_true]
    by_cases him : (r.generateImage && jsTruthy r.name) = true <;> simp [him]
  · intro hcond
    simp only [recipesUpdateAIDoc, hcond, Bool.false_eq_true, if_false]
    by_cases him : (r.generateImage && jsTruthy r.name) = true <;>
      simp [him, applyRecipeUpdateAI]

/-- The regeneration case at a concrete input: renaming the recipe to "B"
regenerates the embedding from "B old". -/
theorem recipesUpdateAI_embedding_witness :
    (recipesUpdateAI aiStore "G" "r1" { emptyAIReq with name := some "B" } "t1").2 =
      Except.ok (recipesUpdateAIDoc aiRecipe { emptyAIReq with name := some "B" } "G" "t1") ∧
    (recipesUpdateAIDoc aiRecipe { emptyAIReq with name := some "B" } "G" "t1").embedding =
      some (generateEmbedding "B old") := by
  have h := recipesUpdateAI_embedding aiStore "G" "r1" "t1"
    { emptyAIReq with name := some "B" } aiRecipe rfl rfl
  refine ⟨h.1, ?_⟩
  rw [h.2.1 (by decide)]
  decide

/-- C8 counterexample: updating the description to the empty string
changes the stored description (from "old" to "") but, because the empty
string is falsy, the embedding is not regenerated: it stays the one
computed from the pre-update text and differs from the embedding of the
post-update text. -/
theorem recipesUpdateAI_missed_regeneration :
    ∃ v, (recipesUpdateAI aiStore "G" "r1"
        { emptyAIReq with description := some "" } "t1").2 = Except.ok v ∧
      v.description = "" ∧
      v.description ≠ aiRecipe.description ∧
      v.embedding = aiRecipe.embedding ∧
      v.embedding ≠ some (generateEmbedding (v.name ++ " " ++ v.description)) := by
  refine ⟨recipesUpdateAIDoc aiRecipe { emptyAIReq with description := some "" } "G" "t1",
    by rfl, by decide, by decide, by decide, by decide⟩

theorem idxFilterFrom_no_match (S : List Nat) :
    ∀ (l : List α) (n : Nat), (∀ i ∈ S, i < n) → idxFilterFrom S n l = l := by
  intro l
  induction l with
  | nil => intro n _; rfl
  | cons a as ih =>
    intro n h
    have hn : n ∉ S := fun hc => absurd (h n hc) (lt_irrefl n)
    simp only [idxFilterFrom]
    rw [if_neg (by simpa using hn)]
    rw [ih (n + 1) (fun i hi => Nat.lt_succ_of_lt (h i hi))]

theorem idxFilterFrom_perm {S S' : List Nat} (hp : S.Perm S') :
    ∀ (l : List α) (n : Nat), idxFilterFrom S n l = idxFilterFrom S' n l := by
  intro l
  induction l with
  | nil => intro n; rfl
  | cons a as ih =>
    intro n
    have : S.contains n = S'.contains n := by
      by_cases hm : n ∈ S
      · have hm' : n ∈ S' := hp.mem_iff.mp hm
        simp [hm, hm']
      · have hm' : n ∉ S' := fun hc => hm (hp.mem_iff.mpr hc)
        simp [hm, hm']
    simp only [idxFilterFrom, this, ih]

theorem idxFilterFrom_erase (S : List Nat) :
    ∀ (j : Nat) (l : List α) (n : Nat), (∀ i ∈ S, i < n + j) → j < l.length →
      idxFilterFrom S n (l.eraseIdx j) = idxFilterFrom ((n + j) :: S) n l := by
  intro j
  induction j with
  | zero =>
    intro l n hS hlen
    cases l with
    | nil => simp at hlen
    | cons a as =>
      have h1 : idxFilterFrom S n as = as :=
        idxFilterFrom_no_match S as n (by simpa using hS)
      have h2 : idxFilterFrom ((n + 0) :: S) (n + 1) as = as := by
        apply idxFilterFrom_no_match
        intro i hi
        rcases List.mem_cons.mp hi with h | h
        · omega
        · have := hS i h
          omega
      have hc : ((n + 0) :: S).contains n = true := by simp
      show idxFilterFrom S n as = idxFilterFrom ((n + 0) :: S) n (a :: as)
      rw [h1]
      simp only [idxFilterFrom, hc, if_true, h2]
  | succ j ih =>
    intro l n hS hlen
    cases l with
    | nil => simp at hlen
    | cons a as =>
      have hlen' : j < as.length := by simpa using hlen
      have hS' : ∀ i ∈ S, i < (n + 1) + j := by
        intro i hi
        have := hS i hi
        omega
      have hceq : ((n + (j + 1)) :: S).contains n = S.contains n := by
        by_cases hm : n ∈ S
        · simp [hm]
        · have : n ∉ (n + (j + 1)) :: S := by
            intro hc
            rcases List.mem_cons.mp hc with h | h
            · omega
            · exact hm h
          simp [hm, this]
      have hIH := ih as (n + 1) hS' hlen'
      have harith : n + 1 + j = n + (j + 1) := by omega
      rw [harith] at hIH
      show idxFilterFrom S n (a :: as.eraseIdx j) =
        idxFilterFrom ((n + (j + 1)) :: S) n (a :: as)
      simp only [idxFilterFrom, hceq]
      by_cases hc : S.contains n = true
      · simp only [hc, if_true]
        exact hIH
      · simp only [hc, Bool.false_eq_true, if_false]
        rw [hIH]

theorem idxFilterFrom_out (S : List Nat) (j : Nat) :
    ∀ (l : List α) (n : Nat), n + l.length ≤ j →
      idxFilterFrom (j :: S) n l = idxFilterFrom S n l := by
  intro l
  induction l with
  | nil => intro n _; rfl
  | cons a as ih =>
    intro n h
    have hlen : n + (a :: as).length = n + as.length + 1 := by simp; omega
    have hceq : (j :: S).contains n = S.contains n := by
      by_cases hm : n ∈ S
      · simp [hm]
      · have : n ∉ j :: S := by
          intro hc
          rcases List.mem_cons.mp hc with hh | hh
          · simp at h
            omega
          · exact hm hh
        simp [hm, this]
    have hIH := ih (n + 1) (by simp at h ⊢; omega)
    simp only [idxFilterFrom, hceq, hIH]

/-- The descending-order splice loop equals positional filtering, for
pairwise-distinct strictly descending index lists. -/
theorem removeFold_spec :
    ∀ (L : List Nat) (cur : List α), L.Pairwise (fun a b => a > b) →
      L.foldl (fun acc idx => if idx < acc.length then acc.eraseIdx idx else acc) cur =
        idxFilter cur L := by
  intro L
  induction L with
  | nil =>
    intro cur _
    exact (idxFilterFrom_no_match [] cur 0 (by simp)).symm
  | cons j L ih =>
    intro cur hpw
    have hLj : ∀ i ∈ L, i < j := (List.pairwise_cons.mp hpw).1
    have hL : L.Pairwise (fun a b => a > b) := (List.pairwise_cons.mp hpw).2
    simp only [List.foldl_cons]
    by_cases hj : j < cur.length
    · rw [if_pos hj, ih _ hL]
      have := idxFilterFrom_erase L j cur 0 (by simpa using hLj) hj
      simpa [idxFilter] using this
    · rw [if_neg hj, ih _ hL]
      unfold idxFilter
      exact (idxFilterFrom_out L j cur 0 (by omega)).symm

theorem sortDescNat_perm (l : List Nat) : (sortDescNat l).Perm l :=
  List.mergeSort_perm l _

theorem sortDescNat_pairwise_gt {l : List Nat} (hnd : l.Nodup) :
    (sortDescNat l).Pairwise (fun a b => a > b) := by
  have hsorted : (sortDescNat l).Pairwise (fun a b : Nat => b ≤ a) := by
    have h := @List.sorted_mergeSort Nat (fun a b : Nat => decide (b ≤ a))
      (by intro a b c h1 h2; simp at h1 h2 ⊢; omega)
      (by intro a b; simp; omega) l
    exact h.imp (fun h => by simpa using h)
  have hnd' : (sortDescNat l).Nodup := (sortDescNat_perm l).nodup_iff.mpr hnd
  have hne : (sortDescNat l).Pairwise (fun a b => a ≠ b) := hnd'
  exact (hsorted.and hne).imp (fun ⟨hle, hneq⟩ => by omega)

/-- `removeIndexesDesc` on a duplicate-free index list removes exactly the
elements at the listed positions. -/
theorem removeIndexesDesc_spec (cur : List α) (idxs : List Nat) (hnd : idxs.Nodup) :
    removeIndexesDesc cur idxs = idxFilter cur idxs := by
  unfold removeIndexesDesc
  rw [removeFold_spec _ _ (sortDescNat_pairwise_gt hnd)]
  exact idxFilterFrom_perm (sortDescNat_perm idxs) cur 0

/-- The add-loop of `applyStringArrayOps` is the identity when every added
value is already present. -/
theorem addLoop_no_op :
    ∀ (add acc : List String), (∀ a ∈ add, a ∈ acc) →
      add.foldl (fun acc item => if acc.contains item then acc else acc ++ [item]) acc = acc := by
  intro add
  induction add with
  | nil => intro acc _; rfl
  | cons a add ih =>
    intro acc h
    have ha : acc.contains a = true := by
      simpa using h a (List.mem_cons_self a add)
    simp only [List.foldl_cons, ha, if_true]
    exact ih acc (fun x hx => h x (List.mem_cons_of_mem a hx))

/-- C7: the delta-array semantics of `recipesUpdate`:
(1) for the string arrays (tags, categories), removals apply before
additions; (2) adding already-present values is a no-op; (3) the
ingredient delta first filters out `removeIngredientIds` and then upserts
by `ingredientId` — replacing the first matching entry in place when the
id is present (preserving the array length), appending otherwise; (4) a
duplicate-free `removeStepIndexes` is processed in descending order,
which removes exactly the elements at the listed positions of the current
steps array (no index shifting), after which `addSteps` are appended. -/
theorem recipe_delta_ops :
    (∀ (cur add rem : List String),
      applyStringArrayOps cur (some add) (some rem) =
        applyStringArrayOps (cur.filter (fun item => !rem.contains item)) (some add) none) ∧
    (∀ (cur add : List String), (∀ a ∈ add, a ∈ cur) →
      applyStringArrayOps cur (some add) none = cur) ∧
    (∀ (cur adds : List RecipeIngredient) (rems : List String),
      applyIngredientArrayOps cur (some adds) (some rems) =
        applyIngredientArrayOps
          (cur.filter (fun ing => !rems.contains ing.ingredientId)) (some adds) none) ∧
    (∀ (cur : List RecipeIngredient) (ing : RecipeIngredient),
      ((∀ c ∈ cur, c.ingredientId ≠ ing.ingredientId) →
        upsertIngredient cur ing = cur ++ [ing]) ∧
      ((∃ c ∈ cur, c.ingredientId = ing.ingredientId) →
        upsertIngredient cur ing =
          cur.set (cur.findIdx (fun c => c.ingredientId == ing.ingredientId)) ing ∧
        (upsertIngredient cur ing).length = cur.length)) ∧
    (∀ (cur : List RecipeStep) (idxs : List Nat) (adds : List RecipeStep),
      idxs.Nodup →
      applyStepArrayOps cur (some adds) (some idxs) = idxFilter cur idxs ++ adds) := by
  refine ⟨?_, ?_, ?_, ?_, ?_⟩
  · intro cur add rem
    rfl
  · intro cur add h
    exact addLoop_no_op add cur h
  · intro cur adds rems
    rfl
  · intro cur ing
    constructor
    · intro habs
      have hfa : ∀ c ∈ cur, (fun c => c.ingredientId == ing.ingredientId) c = false := by
        intro c hc
        simpa using habs c hc
      have hlen : cur.findIdx (fun c => c.ingredientId == ing.ingredientId) = cur.length :=
        List.findIdx_eq_length.mpr hfa
      unfold upsertIngredient
      rw [if_neg (by omega)]
    · intro hex
      have hlt : cur.findIdx (fun c => c.ingredientId == ing.ingredientId) < cur.length := by
        rw [List.findIdx_lt_length]
        obtain ⟨c, hc, he⟩ := hex
        exact ⟨c, hc, by simpa using he⟩
      constructor
      · unfold upsertIngredient
        rw [if_pos hlt]
      · unfold upsertIngredient
        rw [if_pos hlt]
        exact List.length_set cur _ ing
  · intro cur idxs adds hnd
    show (match (some adds : Option (List RecipeStep)) with
      | some a => removeIndexesDesc cur idxs ++ a
      | none => removeIndexesDesc cur idxs) = idxFilter cur idxs ++ adds
    rw [removeIndexesDesc_spec cur idxs hnd]

/-- The delta operations at concrete inputs: re-adding a present tag is a
no-op, removing step indexes 0 and 2 from a three-step list keeps exactly
the middle step, and upserting a fresh ingredient id appends. -/
theorem recipe_delta_ops_witness :
    applyStringArrayOps ["a", "b"] (some ["b"]) none = ["a", "b"] ∧
    applyStepArrayOps
        [⟨"s0", none, none⟩, ⟨"s1", none, none⟩, ⟨"s2", none, none⟩]
        (some [⟨"s3", none, none⟩]) (some [0, 2]) =
      [⟨"s1", none, none⟩, ⟨"s3", none, none⟩] ∧
    upsertIngredient [⟨"i1", none, "g", none, none⟩] ⟨"i2", none, "g", none, none⟩ =
      [⟨"i1", none, "g", none, none⟩, ⟨"i2", none, "g", none, none⟩] := by
  refine ⟨?_, ?_, ?_⟩
  · exact recipe_delta_ops.2.1 ["a", "b"] ["b"] (by decide)
  · have h := recipe_delta_ops.2.2.2.2
      [⟨"s0", none, none⟩, ⟨"s1", none, none⟩, ⟨"s2", none, none⟩]
      [0, 2] [⟨"s3", none, none⟩] (by decide)
    rw [h]
    decide
  · exact (recipe_delta_ops.2.2.2.1 _ _).1 (by decide)

theorem startsWithL_iff : ∀ (s t : List Char),
    startsWithL s t = true ↔ ∃ suf, s = t ++ suf := by
  intro s t
  induction t generalizing s with
  | nil =>
    cases s <;> simp [startsWithL]
  | cons d t ih =>
    cases s with
    | nil =>
      simp [startsWithL]
    | cons c s =>
      simp only [startsWithL, Bool.and_eq_true, beq_iff_eq]
      constructor
      · rintro ⟨rfl, h⟩
        obtain ⟨suf, rfl⟩ := (ih s).mp h
        exact ⟨suf, rfl⟩
      · rintro ⟨suf, heq⟩
        injection heq with h1 h2
        exact ⟨h1, (ih s).mpr ⟨suf, h2⟩⟩

theorem jsIncludesL_iff : ∀ (s t : List Char),
    jsIncludesL s t = true ↔ SubstringOf t s := by
  intro s t
  induction s with
  | nil =>
    show startsWithL [] t = true ↔ _
    rw [startsWithL_iff]
    constructor
    · rintro ⟨suf, h⟩
      exact ⟨[], suf, by simpa using h⟩
    · rintro ⟨pre, suf, h⟩
      rcases List.append_eq_nil.mp (List.append_eq_nil.mp h.symm).1 with ⟨-, ht⟩
      exact ⟨[], by simp [ht]⟩
  | cons c s ih =>
    show (startsWithL (c :: s) t || jsIncludesL s t) = true ↔ _
    rw [Bool.or_eq_true, startsWithL_iff, ih]
    constructor
    · rintro (⟨suf, h⟩ | ⟨pre, suf, h⟩)
      · exact ⟨[], suf, by simpa using h⟩
      · exact ⟨c :: pre, suf, by simp [h]⟩
    · rintro ⟨pre, suf, h⟩
      cases pre with
      | nil =>
        left
        exact ⟨suf, by simpa using h⟩
      | cons p pre =>
        right
        injection h with h1 h2
        exact ⟨pre, suf, h2⟩

theorem jsIncludesL_nil : ∀ (s : List Char), jsIncludesL s [] = true := by
  intro s
  cases s with
  | nil => rfl
  | cons c s =>
    show (startsWithL (c :: s) [] || jsIncludesL s []) = true
    rfl

/-- For a nonempty term, the split-count score equals the greedy
non-overlapping occurrence count. -/
theorem termScore_nonempty (text : List Char) (term : String) (h : term ≠ "") :
    termScore text term = countOccs term.data text := by
  have hd : term.data ≠ [] := by
    intro hc
    exact h (String.ext (by simpa using hc))
  unfold termScore jsSplitL countOccs
  rw [if_neg (by simpa using hd)]
  rw [jsSplitNEAux_length term.data text.length text (le_refl _)]
  omega

/-- For the empty term, the split-count score is the text length minus
one (JavaScript `text.split("").length - 1`). -/
theorem termScore_empty (text : List Char) :
    termScore text "" = text.length - 1 := by
  unfold termScore jsSplitL
  rw [if_pos (by rfl)]
  simp

theorem foldl_add_map (f : String → Nat) :
    ∀ (l : List String) (init : Nat),
      l.foldl (fun score term => score + f term) init = init + (l.map f).sum := by
  intro l
  induction l with
  | nil => intro init; simp
  | cons a l ih =>
    intro init
    simp [ih, Nat.add_assoc]

theorem recipeScoreFor_eq_claimScore (terms : List String) (r : Recipe)
    (h : ∀ t ∈ terms, t ≠ "") : recipeScoreFor terms r = claimScore terms r := by
  unfold recipeScoreFor claimScore
  rw [foldl_add_map (fun term => termScore (searchTextData r) term) terms 0, Nat.zero_add]
  congr 1
  exact List.map_congr_left (fun t ht => termScore_nonempty _ t (h t ht))

theorem keywordMatch_iff (terms : List String) (r : Recipe) :
    keywordMatch terms r = true ↔
      ∃ t ∈ terms, SubstringOf t.data (searchTextData r) := by
  simp only [keywordMatch, List.any_eq_true, jsIncludesL_iff]

theorem ingredientFilterOk_iff (o : Option (List String)) (r : Recipe) :
    ingredientFilterOk o r = true ↔
      ∀ l, o = some l → 0 < l.length →
        ∃ iid ∈ l, ∃ ri ∈ r.ingredients, ri.ingredientId = iid := by
  cases o with
  | none => simp [ingredientFilterOk]
  | some l =>
    simp only [ingredientFilterOk]
    by_cases hl : l.length > 0
    · rw [if_pos hl]
      simp only [List.any_eq_true, beq_iff_eq, Option.some.injEq]
      constructor
      · rintro ⟨iid, hiid, ri, hri, he⟩
        intro l' hl' _
        subst hl'
        exact ⟨iid, hiid, ri, hri, he⟩
      · intro h
        exact h l rfl hl
    · rw [if_neg hl]
      constructor
      · intro _ l' hl' hlen
        injection hl' with he
        subst he
        omega
      · intro _
        rfl

theorem tagFilterOk_iff (o : Option (List String)) (r : Recipe) :
    tagFilterOk o r = true ↔
      ∀ l, o = some l → 0 < l.length →
        ∃ t ∈ l, ∃ rt ∈ r.tags,
          SubstringOf (jsToLower t).data (jsToLower rt).data := by
  cases o with
  | none => simp [tagFilterOk]
  | some l =>
    simp only [tagFilterOk]
    by_cases hl : l.length > 0
    · rw [if_pos hl]
      simp only [List.any_eq_true, jsIncludesL_iff, Option.some.injEq]
      constructor
      · rintro ⟨t, ht, rt, hrt, hs⟩
        intro l' hl' _
        subst hl'
        exact ⟨t, ht, rt, hrt, hs⟩
      · intro h
        exact h l rfl hl
    · rw [if_neg hl]
      constructor
      · intro _ l' hl' hlen
        injection hl' with he
        subst he
        omega
      · intro _
        rfl

theorem categoryFilterOk_iff (o : Option (List String)) (r : Recipe) :
    categoryFilterOk o r = true ↔
      ∀ l, o = some l → 0 < l.length →
        ∃ c ∈ l, ∃ rc ∈ r.categories,
          SubstringOf (jsToLower c).data (jsToLower rc).data := by
  cases o with
  | none => simp [categoryFilterOk]
  | some l =>
    simp only [categoryFilterOk]
    by_cases hl : l.length > 0
    · rw [if_pos hl]
      simp only [List.any_eq_true, jsIncludesL_iff, Option.some.injEq]
      constructor
      · rintro ⟨c, hc, rc, hrc, hs⟩
        intro l' hl' _
        subst hl'
        exact ⟨c, hc, rc, hrc, hs⟩
      · intro h
        exact h l rfl hl
    · rw [if_neg hl]
      constructor
      · intro _ l' hl' hlen
        injection hl' with he
        subst he
        omega
      · intro _
        rfl

theorem splitOnChar_ne_nil (c : Char) : ∀ (l : List Char), splitOnChar c l ≠ [] := by
  intro l
  cases l with
  | nil => exact List.cons_ne_nil [] []
  | cons a as =>
    simp only [splitOnChar]
    by_cases hac : (a == c) = true
    · simp [hac]
    · simp only [hac, Bool.false_eq_true, if_false]
      cases splitOnChar c as <;> simp

/-- The greedy split with a single-character separator is `splitOnChar`. -/
theorem jsSplitNEAux_single (c : Char) :
    ∀ (s : List Char) (fuel : Nat), s.length ≤ fuel →
      jsSplitNEAux [c] fuel s = splitOnChar c s := by
  intro s
  induction s with
  | nil => intro fuel _; cases fuel <;> rfl
  | cons a as ih =>
    intro fuel hfuel
    cases fuel with
    | zero => simp at hfuel
    | succ f =>
      have hf : as.length ≤ f := by simpa using hfuel
      have hstart : startsWithL (a :: as) [c] = (a == c) := by
        simp [startsWithL]
      simp only [jsSplitNEAux, splitOnChar, List.length_cons, hstart]
      by_cases hac : (a == c) = true
      · rw [if_pos (by simp [hac]), if_pos hac]
        show [] :: jsSplitNEAux [c] f as = [] :: splitOnChar c as
        rw [ih f hf]
      · rw [if_neg (by simp [hac]), if_neg hac]
        rw [ih f hf]

/-- Splitting a text around an explicit separator occurrence
concatenates the splits of the two parts. -/
theorem splitOnChar_append (c : Char) :
    ∀ (u v : List Char),
      splitOnChar c (u ++ c :: v) = splitOnChar c u ++ splitOnChar c v := by
  intro u
  induction u with
  | nil =>
    intro v
    simp [splitOnChar]
  | cons a u ih =>
    intro v
    show splitOnChar c (a :: (u ++ c :: v)) = splitOnChar c (a :: u) ++ splitOnChar c v
    by_cases hac : (a == c) = true
    · have h1 : splitOnChar c (a :: (u ++ c :: v)) = [] :: splitOnChar c (u ++ c :: v) := by
        simp only [splitOnChar, hac, if_true]
      have h2 : splitOnChar c (a :: u) = [] :: splitOnChar c u := by
        simp only [splitOnChar, hac, if_true]
      rw [h1, h2, ih]
      rfl
    · cases hu : splitOnChar c u with
      | nil => exact absurd hu (splitOnChar_ne_nil c u)
      | cons seg rest =>
        have h1 : splitOnChar c (a :: (u ++ c :: v)) =
            (a :: seg) :: (rest ++ splitOnChar c v) := by
          simp only [splitOnChar, hac, Bool.false_eq_true, if_false]
          rw [ih, hu]
          rfl
        have h2 : splitOnChar c (a :: u) = (a :: seg) :: rest := by
          simp only [splitOnChar, hac, Bool.false_eq_true, if_false]
          rw [hu]
        rw [h1, h2]
        rfl

/-- `searchTerms` is the single-character split of the lowercased query,
segment by segment. -/
theorem searchTerms_eq (q : String) :
    searchTerms q = (splitOnChar ' ' (jsToLower q).data).map String.mk := by
  unfold searchTerms jsSplit jsSplitL
  rw [if_neg (by decide)]
  show (jsSplitNEAux (" ").data (jsToLower q).data.length (jsToLower q).data).map String.mk = _
  rw [show (" " : String).data = [' '] from rfl]
  rw [jsSplitNEAux_single ' ' (jsToLower q).data _ (le_refl _)]

/-- A query with a leading space, a trailing space, or two consecutive
spaces yields the empty string among its search terms. -/
theorem empty_mem_searchTerms (q : String)
    (h : (∃ v, q.data = ' ' :: v) ∨ (∃ u, q.data = u ++ [' ']) ∨
         (∃ u v, q.data = u ++ ' ' :: ' ' :: v)) :
    "" ∈ searchTerms q := by
  rw [searchTerms_eq]
  have hlower : (jsToLower q).data = q.data.map Char.toLower := rfl
  have hsp : Char.toLower ' ' = ' ' := rfl
  have hempty : [] ∈ splitOnChar ' ' (jsToLower q).data := by
    rcases h with ⟨v, hv⟩ | ⟨u, hu⟩ | ⟨u, v, huv⟩
    · rw [hlower, hv, List.map_cons, hsp]
      simp [splitOnChar]
    · rw [hlower, hu, List.map_append, List.map_cons, List.map_nil, hsp]
      rw [show (([' '] : List Char) = ' ' :: []) from rfl]
      rw [splitOnChar_append ' ' (u.map Char.toLower) []]
      simp [splitOnChar]
    · rw [hlower, huv, List.map_append, List.map_cons, List.map_cons, hsp]
      rw [splitOnChar_append ' ' (u.map Char.toLower) (' ' :: v.map Char.toLower)]
      simp [splitOnChar]
  exact List.mem_map.mpr ⟨[], hempty, rfl⟩

theorem mem_searchMatched_iff (st : Store Recipe) (groupId : String)
    (req : SearchRecipesReq) (p : String × Recipe) :
    p ∈ searchMatched st groupId req ↔
      p ∈ st ∧ p.2.createdByGroupId = groupId ∧ p.2.isArchived = false ∧
      keywordMatch (searchTerms req.query) p.2 = true ∧
      ingredientFilterOk req.ingredients p.2 = true ∧
      tagFilterOk req.tags p.2 = true ∧
      categoryFilterOk req.categories p.2 = true := by
  unfold searchMatched
  simp only [List.mem_filter, Bool.and_eq_true, beq_iff_eq]
  tauto

/-- C3: keyword search returns exactly the caller's non-archived recipes
for which some lowercased query term occurs as a substring of the
lowercased `name ++ " " ++ description` and every provided non-empty
secondary filter is satisfied by at least one listed value (exact
`ingredientId` match; case-insensitive substring for tags and
categories); the result list is an ordering of those matches by
non-increasing relevance score — the sum over terms of the greedy
non-overlapping occurrence counts — truncated to the request limit, whose
parser defaults to 20 and accepts exactly 1..50.  (Terms are produced by
splitting the lowercased query on single spaces; the hypothesis excludes
degenerate empty terms, which are covered by the empty-term claim.) -/
theorem recipesSearch_claim (st : Store Recipe) (groupId : String)
    (req : SearchRecipesReq)
    (hterms : ∀ t ∈ searchTerms req.query, t ≠ "") :
    (∀ p : String × Recipe, p ∈ searchRanked st groupId req ↔
      (p ∈ st ∧ p.2.createdByGroupId = groupId ∧ p.2.isArchived = false ∧
        (∃ t ∈ searchTerms req.query, SubstringOf t.data (searchTextData p.2)) ∧
        (∀ l, req.ingredients = some l → 0 < l.length →
          ∃ iid ∈ l, ∃ ri ∈ p.2.ingredients, ri.ingredientId = iid) ∧
        (∀ l, req.tags = some l → 0 < l.length →
          ∃ t ∈ l, ∃ rt ∈ p.2.tags,
            SubstringOf (jsToLower t).data (jsToLower rt).data) ∧
        (∀ l, req.categories = some l → 0 < l.length →
          ∃ c ∈ l, ∃ rc ∈ p.2.categories,
            SubstringOf (jsToLower c).data (jsToLower rc).data))) ∧
    (searchRanked st groupId req).Pairwise (fun a b =>
      claimScore (searchTerms req.query) b.2 ≤ claimScore (searchTerms req.query) a.2) ∧
    (searchRanked st groupId req).Perm (searchMatched st groupId req) ∧
    (recipesSearch st groupId req).1 = (searchRanked st groupId req).take req.limit ∧
    parseSearchLimit none = Except.ok 20 ∧
    (∀ n l, parseSearchLimit (some n) = Except.ok l → l = n ∧ 1 ≤ l ∧ l ≤ 50) := by
  refine ⟨?_, ?_, List.mergeSort_perm _ _, rfl, rfl, ?_⟩
  · intro p
    rw [show (p ∈ searchRanked st groupId req ↔ p ∈ searchMatched st groupId req) from
      (List.mergeSort_perm _ _).mem_iff]
    rw [mem_searchMatched_iff]
    rw [keywordMatch_iff, ingredientFilterOk_iff, tagFilterOk_iff, categoryFilterOk_iff]
  · have hsorted := @List.sorted_mergeSort (String × Recipe)
      (fun a b => decide (recipeScoreFor (searchTerms req.query) b.2 ≤
        recipeScoreFor (searchTerms req.query) a.2))
      (by intro a b c h1 h2; simp at h1 h2 ⊢; omega)
      (by intro a b; simp; omega)
      (searchMatched st groupId req)
    refine hsorted.imp ?_
    intro a b hab
    have ha := recipeScoreFor_eq_claimScore (searchTerms req.query) a.2 hterms
    have hb := recipeScoreFor_eq_claimScore (searchTerms req.query) b.2 hterms
    simp only [decide_eq_true_eq] at hab
    rw [← ha, ← hb]
    exact hab
  · intro n l hp
    simp only [parseSearchLimit] at hp
    by_cases hr : 1 ≤ n ∧ n ≤ 50
    · rw [if_pos hr] at hp
      injection hp with he
      exact ⟨he.symm, by omega, by omega⟩
    · rw [if_neg hr] at hp
      exact absurd hp (by simp)

/-- The search claim at a concrete corpus: "Tomato Soup" is returned for
the query "tomato", "Garlic Bread" is not, and the response is the ranked
list truncated to the limit. -/
theorem recipesSearch_claim_witness :
    ("r1", tomatoRecipe) ∈ searchRanked searchStore "G" tomatoReq ∧
    ("r2", garlicRecipe) ∉ searchRanked searchStore "G" tomatoReq ∧
    (recipesSearch searchStore "G" tomatoReq).1 =
      (searchRanked searchStore "G" tomatoReq).take 20 := by
  have h := recipesSearch_claim searchStore "G" tomatoReq (by decide)
  refine ⟨?_, ?_, h.2.2.2.1⟩
  · refine (h.1 _).mpr ⟨by decide, rfl, rfl,
      ⟨"tomato", by decide, ⟨[], (" soup a warm soup").data, by decide⟩⟩,
      ?_, ?_, ?_⟩
    · intro l hl
      exact absurd hl (by simp [tomatoReq])
    · intro l hl
      exact absurd hl (by simp [tomatoReq])
    · intro l hl
      exact absurd hl (by simp [tomatoReq])
  · intro hmem
    obtain ⟨-, -, -, ⟨t, ht, hsub⟩, -, -, -⟩ := (h.1 _).mp hmem
    have htt : t = "tomato" := by
      have hts : searchTerms tomatoReq.query = ["tomato"] := by decide
      rw [hts] at ht
      simpa using ht
    rw [htt] at hsub
    have hinc : jsIncludesL (searchTextData garlicRecipe) ("tomato").data = true :=
      (jsIncludesL_iff _ _).mpr hsub
    exact absurd hinc (by decide)

/-- C10 (amended): if the query has a leading space, a trailing space, or
two consecutive spaces, splitting on single spaces produces an
empty-string term; the empty string is a substring of every string, so
every candidate recipe satisfies the keyword-match predicate; and each
empty term contributes `length(lowercased name ++ " " ++ description) - 1`
— the JavaScript `split("")` count, one less than the claimed length — to
the relevance score (the text is never empty, as it contains the joining
space). -/
theorem empty_term_claim (q : String)
    (h : (∃ v, q.data = ' ' :: v) ∨ (∃ u, q.data = u ++ [' ']) ∨
         (∃ u v, q.data = u ++ ' ' :: ' ' :: v)) :
    "" ∈ searchTerms q ∧
    (∀ r : Recipe, keywordMatch (searchTerms q) r = true) ∧
    (∀ r : Recipe, 1 ≤ (searchTextData r).length ∧
      termScore (searchTextData r) "" = (searchTextData r).length - 1) := by
  have hmem := empty_mem_searchTerms q h
  refine ⟨hmem, ?_, ?_⟩
  · intro r
    simp only [keywordMatch, List.any_eq_true]
    exact ⟨"", hmem, jsIncludesL_nil _⟩
  · intro r
    refine ⟨?_, termScore_empty _⟩
    show 1 ≤ ((jsToLower (r.name ++ " " ++ r.description)).data).length
    have hdata : (jsToLower (r.name ++ " " ++ r.description)).data =
        ((r.name ++ " " ++ r.description).data).map Char.toLower := rfl
    rw [hdata, List.length_map, String.data_append, String.data_append]
    simp only [List.length_append, List.length_singleton]
    omega

/-- The empty-term behaviour at the concrete query " x". -/
theorem empty_term_claim_witness :
    "" ∈ searchTerms " x" ∧ keywordMatch (searchTerms " x") tomatoRecipe = true := by
  have h := empty_term_claim " x" (Or.inl ⟨['x'], by decide⟩)
  exact ⟨h.1, h.2.1 tomatoRecipe⟩

/-- C10 counterexample: for the query " x" (leading space) the split
produces the empty term, and on the recipe with searched text "a b"
(length 3) that term contributes 2 — `"a b".split("").length - 1` — to
the relevance score, not 3 as the claim states. -/
theorem empty_term_score_counterexample :
    "" ∈ searchTerms " x" ∧
    keywordMatch (searchTerms " x") tinyRecipe = true ∧
    (searchTextData tinyRecipe).length = 3 ∧
    termScore (searchTextData tinyRecipe) "" = 2 ∧
    termScore (searchTextData tinyRecipe) "" ≠ (searchTextData tinyRecipe).length := by
  refine ⟨by decide, by decide, by decide, by decide, by decide⟩

end RecipesFn

